import Mathlib

/-!
# Verification of the ADK evaluation storage managers

Shallow embedding of the four storage managers in
`google/adk/evaluation` (local filesystem / GCS bucket, for eval sets and
eval set results), together with proofs about the path-naming scheme, the
listing algorithm, and the not-found/error semantics.

Python strings are `String`; the local filesystem and the GCS bucket are
explicit states; operations that can raise return `Except PyErr`.
-/

set_option maxRecDepth 8192

namespace AdkEval

/-! ## Python string and path primitives -/

/-- The character class `[a-zA-Z0-9_]` of the id-validation regex
(ASCII letters, digits, underscore). -/
def isWordChar (c : Char) : Bool := c.isAlpha || c.isDigit || c == '_'

/-- Source: `re.fullmatch("^[a-zA-Z0-9_]+$", s)`: the whole string is one or more
word characters. -/
def matchesIdPattern (s : String) : Bool := !s.data.isEmpty && s.data.all isWordChar

/-- Python `s.startswith(pre)`. -/
def strStartsWith (s pre : String) : Bool := decide (pre.data <+: s.data)

/-- Python `s.endswith(suf)`. -/
def strEndsWith (s suf : String) : Bool := decide (suf.data <:+ s.data)

/-- Python `s.removesuffix(suf)`: if `suf` is nonempty and a true suffix of
`s`, drop it from the end; otherwise return `s` unchanged. -/
def removeSuffix (s suf : String) : String :=
  if suf ≠ "" ∧ suf.data <:+ s.data then ⟨s.data.take (s.data.length - suf.data.length)⟩
  else s

/-- Split a character list at its last `'/'`: the first component keeps
everything up to and including that slash, the second is what follows.
If there is no slash the first component is empty. -/
def splitLastSlash : List Char → List Char × List Char
  | [] => ([], [])
  | c :: cs =>
    let p := splitLastSlash cs
    if p.1.isEmpty then
      if c = '/' then (['/'], cs) else ([], c :: cs)
    else (c :: p.1, p.2)

/-- Python `s.split("/")[-1]`: the part of `s` after its last slash. -/
def splitSlashLast (s : String) : String := ⟨(splitLastSlash s.data).2⟩

/-- Source: `os.path.basename` for POSIX paths: the part after the last slash. -/
def pbasename (p : String) : String := ⟨(splitLastSlash p.data).2⟩

/-- Remove trailing `'/'` characters. -/
def rstripSlashes (l : List Char) : List Char := (l.reverse.dropWhile (· = '/')).reverse

/-- Source: `os.path.dirname` for POSIX paths: everything before the last slash,
with trailing slashes stripped unless the head consists only of slashes. -/
def pdirname (p : String) : String :=
  let head := (splitLastSlash p.data).1
  if head ≠ [] ∧ head.any (· ≠ '/') then ⟨rstripSlashes head⟩ else ⟨head⟩

/-- Source: `os.path.join` for POSIX paths, two components (Python folds this
function over further components). -/
def pjoin (a b : String) : String :=
  if strStartsWith b "/" then b
  else if a = "" ∨ strEndsWith a "/" then a ++ b
  else a ++ "/" ++ b

/-- Directory-name normalisation used by the filesystem model: two path
strings denote the same directory exactly when they agree after stripping
trailing slashes (a string of only slashes is the filesystem root and is
kept as is).  This is the same normalisation `os.path.dirname` applies to
the head it returns. -/
def normDir (d : String) : String :=
  if d.data.any (· ≠ '/') then ⟨rstripSlashes d.data⟩ else d

/-- Python `sorted` on strings: lexicographic ascending by code point. -/
def pySorted (l : List String) : List String := List.insertionSort (· ≤ ·) l

/-! ## Basic lemmas about the primitives -/

theorem string_eq_of_data {s : String} : (⟨s.data⟩ : String) = s := rfl

theorem data_ne_nil_iff {s : String} : s.data ≠ [] ↔ s ≠ "" := by
  constructor
  · intro h hs; exact h (by simp [hs])
  · intro h hd; exact h (String.ext hd)

theorem splitLastSlash_of_no_slash :
    ∀ {l : List Char}, (∀ c ∈ l, c ≠ '/') → splitLastSlash l = ([], l) := by
  intro l
  induction l with
  | nil => intro _; rfl
  | cons c cs ih =>
    intro h
    have hcs : splitLastSlash cs = ([], cs) := ih (fun x hx => h x (List.mem_cons_of_mem _ hx))
    have hc : c ≠ '/' := h c (List.mem_cons_self _ _)
    simp [splitLastSlash, hcs, hc]

theorem splitLastSlash_fst_ne_nil_of_slash :
    ∀ {l : List Char}, '/' ∈ l → (splitLastSlash l).1 ≠ [] := by
  intro l
  induction l with
  | nil => intro h; cases h
  | cons c cs ih =>
    intro h
    by_cases hfst : (splitLastSlash cs).1 = []
    · rcases List.mem_cons.mp h with hc | hcs
      · simp [splitLastSlash, hfst, ← hc]
      · exact absurd hfst (ih hcs)
    · simp only [splitLastSlash, List.isEmpty_iff, hfst, if_false]
      simp

theorem splitLastSlash_append_slash {xs ys : List Char} (h : ∀ c ∈ ys, c ≠ '/') :
    splitLastSlash (xs ++ '/' :: ys) = (xs ++ ['/'], ys) := by
  induction xs with
  | nil =>
    have hys : splitLastSlash ys = ([], ys) := splitLastSlash_of_no_slash h
    simp [splitLastSlash, hys]
  | cons c cs ih =>
    have hne : (splitLastSlash (cs ++ '/' :: ys)).1 ≠ [] :=
      splitLastSlash_fst_ne_nil_of_slash (by simp)
    simp [splitLastSlash, hne, ih]

theorem rstripSlashes_append_slash {xs : List Char} :
    rstripSlashes (xs ++ ['/']) = rstripSlashes xs := by
  simp [rstripSlashes, List.dropWhile]

theorem rstripSlashes_concat_ne {xs : List Char} {c : Char} (h : c ≠ '/') :
    rstripSlashes (xs ++ [c]) = xs ++ [c] := by
  simp [rstripSlashes, List.dropWhile, h]

theorem dropWhile_of_exists_not {p : Char → Bool} :
    ∀ {m : List Char}, (∃ x ∈ m, p x = false) →
      ∃ c rest, p c = false ∧ m.dropWhile p = c :: rest := by
  intro m
  induction m with
  | nil => rintro ⟨x, hx, _⟩; cases hx
  | cons a as ih =>
    rintro ⟨x, hx, hpx⟩
    by_cases hpa : p a = true
    · rcases List.mem_cons.mp hx with rfl | hxs
      · rw [hpa] at hpx; cases hpx
      · rcases ih ⟨x, hxs, hpx⟩ with ⟨c, rest, hc, hd⟩
        exact ⟨c, rest, hc, by simp [List.dropWhile, hpa, hd]⟩
    · exact ⟨a, as, by simpa using hpa, by simp [List.dropWhile, hpa]⟩

theorem rstripSlashes_of_any {l : List Char} (h : l.any (· ≠ '/') = true) :
    ∃ xs c, c ≠ '/' ∧ rstripSlashes l = xs ++ [c] := by
  have hex : ∃ x ∈ l.reverse, decide (x = '/') = false := by
    rcases List.any_eq_true.mp h with ⟨x, hx, hne⟩
    exact ⟨x, List.mem_reverse.mpr hx, by simpa using of_decide_eq_true hne⟩
  rcases dropWhile_of_exists_not hex with ⟨c, rest, hc, hd⟩
  refine ⟨rest.reverse, c, by simpa using hc, ?_⟩
  simp [rstripSlashes, hd]

theorem normDir_idem (s : String) : normDir (normDir s) = normDir s := by
  by_cases h : s.data.any (· ≠ '/') = true
  · rcases rstripSlashes_of_any h with ⟨xs, c, hc, hr⟩
    have h1 : normDir s = ⟨xs ++ [c]⟩ := by rw [normDir, if_pos h, hr]
    have h2 : (⟨xs ++ [c]⟩ : String).data.any (· ≠ '/') = true :=
      List.any_eq_true.mpr ⟨c, by simp, by simpa using hc⟩
    rw [h1, normDir, if_pos h2, rstripSlashes_concat_ne hc]
  · have h1 : normDir s = s := by rw [normDir, if_neg h]
    rw [h1, h1]

theorem normDir_ne_empty {s : String} (h : s ≠ "") : normDir s ≠ "" := by
  by_cases ha : s.data.any (· ≠ '/') = true
  · rcases rstripSlashes_of_any ha with ⟨xs, c, _, hr⟩
    rw [normDir, if_pos ha, hr]
    intro hcontra
    have : xs ++ [c] = ([] : List Char) := congrArg String.data hcontra
    simp at this
  · rw [normDir, if_neg ha]
    exact h

theorem strEndsWith_iff {s suf : String} : strEndsWith s suf = true ↔ suf.data <:+ s.data := by
  simp [strEndsWith]

theorem strStartsWith_iff {s pre : String} :
    strStartsWith s pre = true ↔ pre.data <+: s.data := by
  simp [strStartsWith]

theorem strStartsWith_false_of_no_slash {f : String} (h : ∀ c ∈ f.data, c ≠ '/') :
    strStartsWith f "/" = false := by
  rw [Bool.eq_false_iff]
  intro hc
  have hp : ('/' : Char) ∈ f.data := (strStartsWith_iff.mp hc).subset (by simp [String.data])
  exact h _ hp rfl

theorem strEndsWith_append (s suf : String) : strEndsWith (s ++ suf) suf = true :=
  strEndsWith_iff.mpr (by simp)

theorem string_append_right_cancel {a b c : String} (h : a ++ c = b ++ c) : a = b := by
  apply String.ext
  have := congrArg String.data h
  simp only [String.data_append] at this
  exact List.append_cancel_right this

theorem string_append_left_cancel {a b c : String} (h : a ++ b = a ++ c) : b = c := by
  apply String.ext
  have := congrArg String.data h
  simp only [String.data_append] at this
  exact List.append_cancel_left this

theorem removeSuffix_append (s suf : String) (h : suf ≠ "") :
    removeSuffix (s ++ suf) suf = s := by
  have hsfx : suf.data <:+ (s ++ suf).data := by simp
  rw [removeSuffix, if_pos ⟨h, hsfx⟩]
  apply String.ext
  simp [List.take_left']

theorem removeSuffix_not_endsWith {s suf : String} (h : strEndsWith s suf = false) :
    removeSuffix s suf = s := by
  rw [removeSuffix, if_neg]
  rintro ⟨-, hsfx⟩
  rw [Bool.eq_false_iff] at h
  exact h (strEndsWith_iff.mpr hsfx)

theorem pbasename_no_slash {s : String} (h : ∀ c ∈ s.data, c ≠ '/') : pbasename s = s := by
  rw [pbasename, splitLastSlash_of_no_slash h]

theorem data_append_slash (D f : String) :
    (D ++ "/" ++ f).data = D.data ++ '/' :: f.data := by
  have h1 : ("/" : String).data = ['/'] := rfl
  simp [String.data_append, h1, List.append_assoc]

theorem splitSlashLast_append {D f : String} (hf : ∀ c ∈ f.data, c ≠ '/') :
    splitSlashLast (D ++ "/" ++ f) = f := by
  rw [splitSlashLast, data_append_slash, splitLastSlash_append_slash hf]

theorem pjoin_ne_empty {a b : String} (h : a ≠ "") : pjoin a b ≠ "" := by
  rw [pjoin]
  split
  · next hb =>
    have : ('/' : Char) ∈ b.data := (strStartsWith_iff.mp hb).subset (by simp [String.data])
    intro hcontra
    rw [hcontra] at this
    simp [String.data] at this
  · split
    · intro hcontra
      apply data_ne_nil_iff.mpr h
      have := congrArg String.data hcontra
      simp only [String.data_append] at this
      exact (List.append_eq_nil.mp this).1
    · intro hcontra
      apply data_ne_nil_iff.mpr h
      have := congrArg String.data hcontra
      simp only [String.data_append] at this
      exact (List.append_eq_nil.mp (List.append_eq_nil.mp this).1).1

theorem getLast_ne_slash_of_not_endsWith {J : String} (hJ : J ≠ "")
    (hE : strEndsWith J "/" = false) :
    ∃ xs c, c ≠ '/' ∧ J.data = xs ++ [c] := by
  have hd : J.data ≠ [] := data_ne_nil_iff.mpr hJ
  refine ⟨J.data.dropLast, J.data.getLast hd, ?_, (List.dropLast_append_getLast hd).symm⟩
  intro hc
  rw [Bool.eq_false_iff] at hE
  apply hE
  apply strEndsWith_iff.mpr
  refine ⟨J.data.dropLast, ?_⟩
  have : ("/" : String).data = [J.data.getLast hd] := by simp [String.data, hc]
  rw [this]
  exact List.dropLast_append_getLast hd

theorem pjoin_split {J f : String} (hJ : J ≠ "") (hf : f ≠ "")
    (hslash : ∀ c ∈ f.data, c ≠ '/') :
    pdirname (pjoin J f) = normDir J ∧ pbasename (pjoin J f) = f := by
  have hb : strStartsWith f "/" = false := strStartsWith_false_of_no_slash hslash
  rw [pjoin, if_neg (by rw [hb]; exact Bool.false_ne_true)]
  by_cases hE : strEndsWith J "/" = true
  · rw [if_pos (Or.inr hE)]
    rcases strEndsWith_iff.mp hE with ⟨E, hEeq⟩
    have hJd : J.data = E ++ ['/'] := by
      rw [← hEeq]
    have hdata : (J ++ f).data = E ++ '/' :: f.data := by
      rw [String.data_append, hJd, List.append_assoc, List.singleton_append]
    have hsplit : splitLastSlash (J ++ f).data = (J.data, f.data) := by
      rw [hdata, splitLastSlash_append_slash hslash, ← hJd]
    constructor
    · rw [pdirname, hsplit]
      rw [normDir]
      by_cases hany : J.data.any (· ≠ '/') = true
      · rw [if_pos ⟨data_ne_nil_iff.mpr hJ, hany⟩, if_pos hany]
      · rw [if_neg (fun hcontra => hany hcontra.2), if_neg hany]
    · rw [pbasename, hsplit]
  · have hEf : strEndsWith J "/" = false := Bool.eq_false_iff.mpr hE
    rw [if_neg (by rw [hEf]; rintro (hc | hc); exact hJ hc; exact Bool.false_ne_true hc)]
    rcases getLast_ne_slash_of_not_endsWith hJ hEf with ⟨xs, c, hc, hJdata⟩
    have hsplit : splitLastSlash (J ++ "/" ++ f).data = (J.data ++ ['/'], f.data) := by
      rw [data_append_slash, splitLastSlash_append_slash hslash]
    have hcmem : c ∈ J.data := by rw [hJdata]; simp
    have hany : J.data.any (· ≠ '/') = true :=
      List.any_eq_true.mpr ⟨c, hcmem, by simpa using hc⟩
    constructor
    · rw [pdirname, hsplit]
      have hanyh : (J.data ++ ['/']).any (· ≠ '/') = true :=
        List.any_eq_true.mpr ⟨c, by simp [hcmem], by simpa using hc⟩
      rw [if_pos ⟨by simp, hanyh⟩, normDir, if_pos hany, rstripSlashes_append_slash]
    · rw [pbasename, hsplit]

/-! ## Error model

Python exceptions relevant to this slice.  `fileNotFound` is
`FileNotFoundError`, `cloudNotFound` is `google.cloud.exceptions.NotFound`,
`valueError` is `ValueError`, `validationError` is pydantic's
`ValidationError`, and `osError` stands for any other `OSError`
(permissions, I/O failure) raised by the environment. -/

inductive PyErr where
  | fileNotFound (path : String)
  | cloudNotFound
  | valueError (msg : String)
  | validationError (text : String)
  | osError (path : String)
deriving DecidableEq

/-! ## Documents -/

/-- Modelled from the spec: the `EvalSet` pydantic model (`eval_set.py`) is
not part of this slice; the spec treats a document as an opaque JSON
payload with a stable serialization round-trip (`serialize`/`deserialize`
must be inverses) and `deserialize` failing on malformed text.  We model a
document by its canonical serialized text. -/
structure EvalSet where
  ser : String
deriving DecidableEq

/-- Source: `eval_set.model_dump_json(indent=2)`: the document's serialized form. -/
def EvalSet.model_dump_json (e : EvalSet) : String := e.ser

/-- Modelled from the spec: `EvalSet.model_validate_json` parses text into a
document or raises a validation error.  Which texts are well-formed is
external to this slice, so it is a parameter `valid`; the spec's inverse
requirement is the hypothesis `valid (serialize d) = true` where needed. -/
def EvalSet.model_validate_json (valid : String → Bool) (s : String) : Except PyErr EvalSet :=
  if valid s then .ok ⟨s⟩ else .error (.validationError s)

/-- Modelled from the spec: the `EvalSetResult` pydantic model
(`eval_result.py`) is not part of this slice; modelled like `EvalSet`. -/
structure EvalSetResult where
  ser : String
deriving DecidableEq

/-- Source: `eval_set_result.model_dump_json(indent=2)`. -/
def EvalSetResult.model_dump_json (e : EvalSetResult) : String := e.ser

/-- Modelled from the spec: `EvalSetResult.model_validate_json`, as for
`EvalSet.model_validate_json`. -/
def EvalSetResult.model_validate_json (valid : String → Bool) (s : String) :
    Except PyErr EvalSetResult :=
  if valid s then .ok ⟨s⟩ else .error (.validationError s)

/-! ## Association-list helpers (string-keyed stores) -/

/-- Look up a key in an association list. -/
def lookupKey : List (String × String) → String → Option String
  | [], _ => none
  | (k', v) :: t, k => if k' = k then some v else lookupKey t k

/-- Overwrite the value at a key, appending the pair at the end when the
key is new (Python dict / object-store overwrite semantics). -/
def replaceKey : List (String × String) → String → String → List (String × String)
  | [], k, v => [(k, v)]
  | (k', v') :: t, k, v => if k' = k then (k, v) :: t else (k', v') :: replaceKey t k v

/-! ## Local filesystem model

The filesystem is a finite map from path strings to file contents plus a
set of known directories (stored trailing-slash-normalised, see
`normDir`).  `badPaths` are paths on which the environment raises an
`OSError` other than `FileNotFoundError` when read (e.g. permissions).
Directory entries other than regular files in the listed directory itself
are not modelled; the managers only consume regular files. -/

structure LocalFS where
  files : List (String × String)
  dirs : List String
  badPaths : List String

/-- Source: `os.path.exists`: true for an existing file or directory; the empty
string never exists. -/
def LocalFS.pathExists (fs : LocalFS) (p : String) : Bool :=
  if p = "" then false
  else fs.dirs.contains (normDir p) || (fs.files.map Prod.fst).contains p

/-- Source: `os.makedirs(d, exist_ok=True)`: raises `FileNotFoundError` on the
empty path, otherwise records the directory. -/
def LocalFS.makedirs (fs : LocalFS) (d : String) : Except PyErr LocalFS :=
  if d = "" then .error (.fileNotFound d)
  else .ok { fs with dirs := normDir d :: fs.dirs }

/-- Source: `open(p, "w").write(c)`: full overwrite of the file at `p`. -/
def LocalFS.write (fs : LocalFS) (p c : String) : LocalFS :=
  { fs with files := replaceKey fs.files p c }

/-- The save pattern of both local managers:
`if not os.path.exists(os.path.dirname(path)): os.makedirs(...)` then
write the full content. -/
def LocalFS.save (fs : LocalFS) (p c : String) : Except PyErr LocalFS :=
  match (if fs.pathExists (pdirname p) then Except.ok fs else fs.makedirs (pdirname p)) with
  | .ok fs' => .ok (fs'.write p c)
  | .error e => .error e

/-- Source: `open(p, "r").read()`: the file's content, `FileNotFoundError` when
absent, `OSError` on a bad path. -/
def LocalFS.read (fs : LocalFS) (p : String) : Except PyErr String :=
  if fs.badPaths.contains p then .error (.osError p)
  else match lookupKey fs.files p with
    | some c => .ok c
    | none => .error (.fileNotFound p)

/-- Source: `os.listdir(d)`: the names of the entries of directory `d`, or
`FileNotFoundError` when `d` does not exist. -/
def LocalFS.listdir (fs : LocalFS) (d : String) : Except PyErr (List String) :=
  if d ≠ "" ∧ fs.dirs.contains (normDir d) = true then
    .ok ((fs.files.map Prod.fst).filterMap fun k =>
      if pdirname k = normDir d then some (pbasename k) else none)
  else .error (.fileNotFound d)

/-! ## GCS model

A bucket is a flat map from object names to contents.  `present` records
whether the provider currently has the bucket: when it does not,
`exists` is false and queries raise `NotFound`.  `badBlobs` are objects
whose download fails with an error other than `NotFound`. -/

structure GcsBucket where
  bucketName : String
  blobs : List (String × String)
  present : Bool
  badBlobs : List String

/-- Source: `bucket.exists()`. -/
def GcsBucket.bExists (b : GcsBucket) : Bool := b.present

/-- Source: `bucket.list_blobs(prefix=pre)`: names of the objects whose name starts
with `pre`; raises `NotFound` when the provider has no such bucket. -/
def GcsBucket.listBlobs (b : GcsBucket) (pre : String) : Except PyErr (List String) :=
  if b.present then .ok ((b.blobs.map Prod.fst).filter fun n => strStartsWith n pre)
  else .error .cloudNotFound

/-- Source: `bucket.blob(name).download_as_text()`. -/
def GcsBucket.downloadAsText (b : GcsBucket) (name : String) : Except PyErr String :=
  if ¬ b.present then .error .cloudNotFound
  else if b.badBlobs.contains name then .error (.osError name)
  else match lookupKey b.blobs name with
    | some c => .ok c
    | none => .error .cloudNotFound

/-- Source: `bucket.blob(name).upload_from_string(content, content_type="application/json")`:
unconditional overwrite of the object. -/
def GcsBucket.uploadFromString (b : GcsBucket) (name content : String) :
    Except PyErr GcsBucket :=
  if b.present then .ok { b with blobs := replaceKey b.blobs name content }
  else .error .cloudNotFound

/-! ## Module constants -/

/-- Source: `_EVAL_SET_FILE_EXTENSION = ".evalset.json"`. -/
def evalSetFileExtension : String := ".evalset.json"

/-- Source: `_EVAL_SET_RESULT_FILE_EXTENSION = ".evalset_result.json"`. -/
def evalSetResultFileExtension : String := ".evalset_result.json"

/-- Source: `_EVAL_SETS_DIR = "evals/eval_sets"` (GCS eval sets). -/
def evalSetsDirConst : String := "evals/eval_sets"

/-- Source: `_EVAL_HISTORY_DIR = "evals/eval_history"` (GCS eval set results). -/
def evalHistoryDirConst : String := "evals/eval_history"

/-- Source: `_ADK_EVAL_HISTORY_DIR = ".adk/eval_history"` (local eval set results). -/
def adkEvalHistoryDir : String := ".adk/eval_history"

/-! ## LocalEvalSetStorageManager

`local_eval_set_storage_manager.py`.  The manager's only configuration is
`agents_dir`; the filesystem state is passed explicitly. -/

namespace LocalEvalSetStorageManager

/-- Source: `os.path.join(self._agents_dir, app_name, eval_set_id + _EVAL_SET_FILE_EXTENSION)`. -/
def get_eval_set_path (agents_dir app_name eval_set_id : String) : String :=
  pjoin (pjoin agents_dir app_name) (eval_set_id ++ evalSetFileExtension)

/-- Source: `list_eval_sets`: list the namespace directory, keep names with the
eval-set extension, strip it, sort.  Note there is no existence check on
the directory, so `os.listdir` may raise. -/
def list_eval_sets (fs : LocalFS) (agents_dir app_name : String) :
    Except PyErr (List String) :=
  match fs.listdir (pjoin agents_dir app_name) with
  | .ok files =>
    .ok (pySorted ((files.filter fun f => strEndsWith f evalSetFileExtension).map
      fun f => removeSuffix (pbasename f) evalSetFileExtension))
  | .error e => .error e

/-- Source: `save_eval_set`: create parent directories if needed, write the full
serialized document. -/
def save_eval_set (fs : LocalFS) (path : String) (eval_set : EvalSet) :
    Except PyErr LocalFS :=
  fs.save path eval_set.model_dump_json

/-- Source: `load_eval_set`: read and parse; `FileNotFoundError` becomes `none`,
everything else propagates. -/
def load_eval_set (valid : String → Bool) (fs : LocalFS) (path : String) :
    Except PyErr (Option EvalSet) :=
  match fs.read path with
  | .ok content => (EvalSet.model_validate_json valid content).map some
  | .error (.fileNotFound _) => .ok none
  | .error e => .error e

end LocalEvalSetStorageManager

/-! ## LocalEvalSetResultsStorageManager

`local_eval_set_results_storage_manager.py`. -/

namespace LocalEvalSetResultsStorageManager

/-- Source: `os.path.join(self._agents_dir, app_name, _ADK_EVAL_HISTORY_DIR)`. -/
def getEvalHistoryDir (agents_dir app_name : String) : String :=
  pjoin (pjoin agents_dir app_name) adkEvalHistoryDir

/-- Source: `os.path.join(self._agents_dir, app_name, _ADK_EVAL_HISTORY_DIR,
eval_set_result_id + _EVAL_SET_RESULT_FILE_EXTENSION)`. -/
def get_eval_set_result_path (agents_dir app_name eval_set_result_id : String) : String :=
  pjoin (getEvalHistoryDir agents_dir app_name)
    (eval_set_result_id ++ evalSetResultFileExtension)

/-- Source: `list_eval_set_results`: return `[]` when the history directory does
not exist; otherwise list it, keep names with the result extension, strip
it, sort.  Unlike the eval-set manager this one checks existence first. -/
def list_eval_set_results (fs : LocalFS) (agents_dir app_name : String) :
    Except PyErr (List String) :=
  let dir := getEvalHistoryDir agents_dir app_name
  if ¬ fs.pathExists dir then .ok []
  else match fs.listdir dir with
    | .ok files =>
      .ok (pySorted ((files.filter fun f => strEndsWith f evalSetResultFileExtension).map
        fun f => removeSuffix f evalSetResultFileExtension))
    | .error e => .error e

/-- Source: `save_eval_set_result`. -/
def save_eval_set_result (fs : LocalFS) (path : String) (r : EvalSetResult) :
    Except PyErr LocalFS :=
  fs.save path r.model_dump_json

/-- Source: `load_eval_set_result`. -/
def load_eval_set_result (valid : String → Bool) (fs : LocalFS) (path : String) :
    Except PyErr (Option EvalSetResult) :=
  match fs.read path with
  | .ok content => (EvalSetResult.model_validate_json valid content).map some
  | .error (.fileNotFound _) => .ok none
  | .error e => .error e

end LocalEvalSetResultsStorageManager

/-! ## GcsEvalSetStorageManager

`gcs_eval_set_storage_manager.py`.  The manager's state is the bucket. -/

namespace GcsEvalSetStorageManager

/-- Source: `__init__`: check the bucket exists, else raise `ValueError`. -/
def init (b : GcsBucket) : Except PyErr GcsBucket :=
  if b.bExists then .ok b
  else .error (.valueError ("Bucket `" ++ b.bucketName ++
    "` does not exist. Please create it before using the GcsEvalSetStorageManager."))

/-- Source: `f"{app_name}/{_EVAL_SETS_DIR}"`. -/
def getEvalSetsDir (app_name : String) : String := app_name ++ "/" ++ evalSetsDirConst

/-- Source: `_validate_id`: `re.fullmatch("^[a-zA-Z0-9_]+$", id_value)` or raise a
`ValueError` naming the field and the pattern. -/
def validate_id (id_name id_value : String) : Except PyErr Unit :=
  if matchesIdPattern id_value then .ok ()
  else .error (.valueError ("Invalid " ++ id_name ++ ". " ++ id_name ++
    " should have the `^[a-zA-Z0-9_]+$` format"))

/-- Source: `get_eval_set_path`: pure key construction,
`f"{eval_sets_dir}/{eval_set_id}{_EVAL_SET_FILE_EXTENSION}"`.
No validation is performed here. -/
def get_eval_set_path (app_name eval_set_id : String) : String :=
  getEvalSetsDir app_name ++ "/" ++ eval_set_id ++ evalSetFileExtension

/-- Source: `list_eval_sets`: prefix query, take each blob name's last `/`-separated
component, strip the extension, sort; translate a provider `NotFound` into
a `ValueError` naming the app and the bucket. -/
def list_eval_sets (b : GcsBucket) (app_name : String) : Except PyErr (List String) :=
  match b.listBlobs (getEvalSetsDir app_name) with
  | .ok names =>
    .ok (pySorted (names.map fun n => removeSuffix (splitSlashLast n) evalSetFileExtension))
  | .error .cloudNotFound =>
    .error (.valueError ("App `" ++ app_name ++ "` not found in GCS bucket `" ++
      b.bucketName ++ "`."))
  | .error e => .error e

/-- Source: `save_eval_set`: upload the serialized document at the key. -/
def save_eval_set (b : GcsBucket) (path : String) (eval_set : EvalSet) :
    Except PyErr GcsBucket :=
  b.uploadFromString path eval_set.model_dump_json

/-- Source: `load_eval_set`: download and parse; `NotFound` becomes `none`,
everything else propagates. -/
def load_eval_set (valid : String → Bool) (b : GcsBucket) (path : String) :
    Except PyErr (Option EvalSet) :=
  match b.downloadAsText path with
  | .ok data => (EvalSet.model_validate_json valid data).map some
  | .error .cloudNotFound => .ok none
  | .error e => .error e

end GcsEvalSetStorageManager

/-! ## GcsEvalSetResultsStorageManager

`gcs_eval_set_results_storage_manager.py`. -/

namespace GcsEvalSetResultsStorageManager

/-- Source: `__init__`: check the bucket exists, else raise `ValueError`. -/
def init (b : GcsBucket) : Except PyErr GcsBucket :=
  if b.bExists then .ok b
  else .error (.valueError ("Bucket `" ++ b.bucketName ++
    "` does not exist. Please create it before using the GcsEvalSetResultsStorageManager."))

/-- Source: `f"{app_name}/{_EVAL_HISTORY_DIR}"`. -/
def getEvalHistoryDir (app_name : String) : String := app_name ++ "/" ++ evalHistoryDirConst

/-- Source: `get_eval_set_result_path`:
`f"{eval_history_dir}/{eval_set_result_id}{_EVAL_SET_RESULT_FILE_EXTENSION}"`. -/
def get_eval_set_result_path (app_name eval_set_result_id : String) : String :=
  getEvalHistoryDir app_name ++ "/" ++ eval_set_result_id ++ evalSetResultFileExtension

/-- Source: `list_eval_set_results`: as `GcsEvalSetStorageManager.list_eval_sets`
with the history prefix and result extension. -/
def list_eval_set_results (b : GcsBucket) (app_name : String) : Except PyErr (List String) :=
  match b.listBlobs (getEvalHistoryDir app_name) with
  | .ok names =>
    .ok (pySorted (names.map fun n =>
      removeSuffix (splitSlashLast n) evalSetResultFileExtension))
  | .error .cloudNotFound =>
    .error (.valueError ("App `" ++ app_name ++ "` not found in GCS bucket `" ++
      b.bucketName ++ "`."))
  | .error e => .error e

/-- Source: `save_eval_set_result`. -/
def save_eval_set_result (b : GcsBucket) (path : String) (r : EvalSetResult) :
    Except PyErr GcsBucket :=
  b.uploadFromString path r.model_dump_json

/-- Source: `load_eval_set_result`. -/
def load_eval_set_result (valid : String → Bool) (b : GcsBucket) (path : String) :
    Except PyErr (Option EvalSetResult) :=
  match b.downloadAsText path with
  | .ok data => (EvalSetResult.model_validate_json valid data).map some
  | .error .cloudNotFound => .ok none
  | .error e => .error e

end GcsEvalSetResultsStorageManager

/-! ## Spec path templates

The literal storage-location templates of the spec's external-interface
table (transcribed from the spec's words, to be compared with the code's
path resolution). -/

/-- Spec template: local eval set `{root}/{namespace}/{id}.evalset.json`. -/
def localEvalSetPathTemplate (root ns id : String) : String :=
  root ++ "/" ++ ns ++ "/" ++ id ++ ".evalset.json"

/-- Spec template: local eval set result
`{root}/{namespace}/.adk/eval_history/{id}.evalset_result.json`. -/
def localEvalSetResultPathTemplate (root ns id : String) : String :=
  root ++ "/" ++ ns ++ "/.adk/eval_history/" ++ id ++ ".evalset_result.json"

/-- Spec template: object-store eval set
`{namespace}/evals/eval_sets/{id}.evalset.json`. -/
def gcsEvalSetPathTemplate (ns id : String) : String :=
  ns ++ "/evals/eval_sets/" ++ id ++ ".evalset.json"

/-- Spec template: object-store eval set result
`{namespace}/evals/eval_history/{id}.evalset_result.json`. -/
def gcsEvalSetResultPathTemplate (ns id : String) : String :=
  ns ++ "/evals/eval_history/" ++ id ++ ".evalset_result.json"

/-! ## Association-list lemmas -/

theorem contains_eq_false_iff {l : List String} {a : String} :
    l.contains a = false ↔ a ∉ l := by
  simp

theorem lookupKey_replaceKey_self (l : List (String × String)) (k v : String) :
    lookupKey (replaceKey l k v) k = some v := by
  induction l with
  | nil => simp [replaceKey, lookupKey]
  | cons p t ih =>
    obtain ⟨k', v'⟩ := p
    by_cases h : k' = k
    · simp [replaceKey, h, lookupKey]
    · simp [replaceKey, h, lookupKey, ih]

theorem replaceKey_map_fst_fresh {l : List (String × String)} {k : String} (v : String)
    (h : k ∉ l.map Prod.fst) :
    (replaceKey l k v).map Prod.fst = l.map Prod.fst ++ [k] := by
  induction l with
  | nil => simp [replaceKey]
  | cons p t ih =>
    obtain ⟨k', v'⟩ := p
    simp only [List.map_cons, List.mem_cons] at h
    push_neg at h
    have hne : k' ≠ k := fun hc => h.1 hc.symm
    simp [replaceKey, hne, ih h.2]

/-! ## Further string lemmas -/

theorem suffix_single_iff {l : List Char} {c : Char} :
    [c] <:+ l ↔ l.getLast? = some c := by
  rw [List.getLast?_eq_some_iff]
  constructor
  · rintro ⟨t, rfl⟩; exact ⟨t, rfl⟩
  · rintro ⟨t, rfl⟩; exact ⟨t, rfl⟩

theorem strEndsWith_slash_iff {s : String} :
    strEndsWith s "/" = true ↔ s.data.getLast? = some '/' := by
  rw [strEndsWith_iff]
  exact suffix_single_iff

theorem strEndsWith_append_right {x ns : String} (h : ns ≠ "") :
    strEndsWith (x ++ ns) "/" = strEndsWith ns "/" := by
  have hnd : ns.data ≠ [] := data_ne_nil_iff.mpr h
  rcases hns : ns.data.getLast? with - | c
  · exact absurd (List.getLast?_eq_none_iff.mp hns) hnd
  · by_cases hc : strEndsWith ns "/" = true
    · rw [hc]
      apply strEndsWith_slash_iff.mpr
      rw [String.data_append, List.getLast?_append, hns]
      rw [strEndsWith_slash_iff.mp hc] at hns
      simpa using hns.symm
    · rw [Bool.eq_false_iff.mpr hc, Bool.eq_false_iff]
      intro hcontra
      apply hc
      apply strEndsWith_slash_iff.mpr
      have := strEndsWith_slash_iff.mp hcontra
      rw [String.data_append, List.getLast?_append, hns] at this
      simp only [Option.or_some] at this
      rw [hns, this]

theorem strStartsWith_slash_append {a b : String}
    (ha : strStartsWith a "/" = false) (hb : strStartsWith b "/" = false) :
    strStartsWith (a ++ b) "/" = false := by
  rw [Bool.eq_false_iff]
  intro hcontra
  rcases strStartsWith_iff.mp hcontra with ⟨t, ht⟩
  rw [String.data_append] at ht
  rcases had : a.data with - | ⟨c, cs⟩
  · apply Bool.eq_false_iff.mp hb
    apply strStartsWith_iff.mpr
    rw [had] at ht
    exact ⟨t, ht⟩
  · apply Bool.eq_false_iff.mp ha
    apply strStartsWith_iff.mpr
    rw [had] at ht
    have hc : c = '/' := by
      have : ('/' :: [] : List Char) ++ t = c :: (cs ++ b.data) := by
        simpa using ht
      exact (List.cons.injEq _ _ _ _ ▸ this).1.symm
    refine ⟨cs, ?_⟩
    rw [had, hc]
    rfl

theorem pjoin_eq_slash {a b : String} (hb : strStartsWith b "/" = false)
    (ha : a ≠ "") (hae : strEndsWith a "/" = false) :
    pjoin a b = a ++ "/" ++ b := by
  rw [pjoin, if_neg (by rw [hb]; exact Bool.false_ne_true),
    if_neg (by rw [hae]; rintro (hc | hc); exact ha hc; exact Bool.false_ne_true hc)]

theorem strStartsWith_dot_ext {id ext : String}
    (hid : strStartsWith id "/" = false) (hext : strStartsWith ext "/" = false) :
    strStartsWith (id ++ ext) "/" = false :=
  strStartsWith_slash_append hid hext

theorem append_ne_empty_right {a b : String} (hb : b ≠ "") : a ++ b ≠ "" := by
  intro hc
  apply data_ne_nil_iff.mpr hb
  have := congrArg String.data hc
  rw [String.data_append] at this
  exact (List.append_eq_nil.mp this).2

/-! ## Path-template lemmas -/

theorem gcs_set_path_eq_template (app id : String) :
    GcsEvalSetStorageManager.get_eval_set_path app id = gcsEvalSetPathTemplate app id := by
  apply String.ext
  simp only [GcsEvalSetStorageManager.get_eval_set_path,
    GcsEvalSetStorageManager.getEvalSetsDir, gcsEvalSetPathTemplate, evalSetsDirConst,
    evalSetFileExtension, String.data_append, List.append_assoc]
  rfl

theorem gcs_result_path_eq_template (app id : String) :
    GcsEvalSetResultsStorageManager.get_eval_set_result_path app id =
      gcsEvalSetResultPathTemplate app id := by
  apply String.ext
  simp only [GcsEvalSetResultsStorageManager.get_eval_set_result_path,
    GcsEvalSetResultsStorageManager.getEvalHistoryDir, gcsEvalSetResultPathTemplate,
    evalHistoryDirConst, evalSetResultFileExtension, String.data_append, List.append_assoc]
  rfl

theorem local_set_path_eq_template (root ns id : String)
    (hroot : root ≠ "") (hrootE : strEndsWith root "/" = false)
    (hns : ns ≠ "") (hnsS : strStartsWith ns "/" = false)
    (hnsE : strEndsWith ns "/" = false) (hidS : strStartsWith id "/" = false) :
    LocalEvalSetStorageManager.get_eval_set_path root ns id =
      localEvalSetPathTemplate root ns id := by
  have hext : strStartsWith evalSetFileExtension "/" = false := by decide
  have hf : strStartsWith (id ++ evalSetFileExtension) "/" = false :=
    strStartsWith_slash_append hidS hext
  have h1 : pjoin root ns = root ++ "/" ++ ns := pjoin_eq_slash hnsS hroot hrootE
  have h2 : root ++ "/" ++ ns ≠ "" := append_ne_empty_right hns
  have h3 : strEndsWith (root ++ "/" ++ ns) "/" = false := by
    rw [strEndsWith_append_right hns]; exact hnsE
  rw [LocalEvalSetStorageManager.get_eval_set_path, h1, pjoin_eq_slash hf h2 h3]
  apply String.ext
  simp only [localEvalSetPathTemplate, evalSetFileExtension, String.data_append,
    List.append_assoc]

theorem local_result_path_eq_template (root ns id : String)
    (hroot : root ≠ "") (hrootE : strEndsWith root "/" = false)
    (hns : ns ≠ "") (hnsS : strStartsWith ns "/" = false)
    (hnsE : strEndsWith ns "/" = false) (hidS : strStartsWith id "/" = false) :
    LocalEvalSetResultsStorageManager.get_eval_set_result_path root ns id =
      localEvalSetResultPathTemplate root ns id := by
  have hext : strStartsWith evalSetResultFileExtension "/" = false := by decide
  have hf : strStartsWith (id ++ evalSetResultFileExtension) "/" = false :=
    strStartsWith_slash_append hidS hext
  have hadkS : strStartsWith adkEvalHistoryDir "/" = false := by decide
  have hadkN : adkEvalHistoryDir ≠ "" := by decide
  have hadkE : strEndsWith adkEvalHistoryDir "/" = false := by decide
  have h1 : pjoin root ns = root ++ "/" ++ ns := pjoin_eq_slash hnsS hroot hrootE
  have h2 : root ++ "/" ++ ns ≠ "" := append_ne_empty_right hns
  have h3 : strEndsWith (root ++ "/" ++ ns) "/" = false := by
    rw [strEndsWith_append_right hns]; exact hnsE
  have h4 : pjoin (root ++ "/" ++ ns) adkEvalHistoryDir =
      root ++ "/" ++ ns ++ "/" ++ adkEvalHistoryDir := pjoin_eq_slash hadkS h2 h3
  have h5 : root ++ "/" ++ ns ++ "/" ++ adkEvalHistoryDir ≠ "" :=
    append_ne_empty_right hadkN
  have h6 : strEndsWith (root ++ "/" ++ ns ++ "/" ++ adkEvalHistoryDir) "/" = false := by
    rw [strEndsWith_append_right hadkN]; exact hadkE
  rw [LocalEvalSetResultsStorageManager.get_eval_set_result_path,
    LocalEvalSetResultsStorageManager.getEvalHistoryDir, h1, h4, pjoin_eq_slash hf h5 h6]
  apply String.ext
  simp only [localEvalSetResultPathTemplate, evalSetResultFileExtension, adkEvalHistoryDir,
    String.data_append, List.append_assoc]
  rfl

/-! ## Claim C3: path templates -/

/-- C3, counterexample.  The claim says the local eval-set resolution
returns the literal template `{root}/{namespace}/{id}.evalset.json` for
every `(namespace, id)`.  For the namespace `"/a"` (which `os.path.join`
treats as absolute, discarding the root) the code returns
`"/a/x.evalset.json"`, not the template's `"root//a/x.evalset.json"`. -/
theorem c3_path_templates_cex :
    LocalEvalSetStorageManager.get_eval_set_path "root" "/a" "x" = "/a/x.evalset.json" ∧
    localEvalSetPathTemplate "root" "/a" "x" = "root//a/x.evalset.json" ∧
    LocalEvalSetStorageManager.get_eval_set_path "root" "/a" "x" ≠
      localEvalSetPathTemplate "root" "/a" "x" :=
  ⟨by decide, by decide, by decide⟩

/-- C3 (amended): the two object-store resolutions return exactly their
documented templates for every `(namespace, id)`; the two local
resolutions (built with `os.path.join`) return exactly their documented
templates whenever the root is nonempty and does not end in `/`, the
namespace is nonempty and neither starts nor ends with `/`, and the id
does not start with `/` — outside those conditions `os.path.join`
deviates from the literal template. -/
theorem c3_path_templates (root ns id : String)
    (hroot : root ≠ "") (hrootE : strEndsWith root "/" = false)
    (hns : ns ≠ "") (hnsS : strStartsWith ns "/" = false)
    (hnsE : strEndsWith ns "/" = false) (hidS : strStartsWith id "/" = false) :
    GcsEvalSetStorageManager.get_eval_set_path ns id = gcsEvalSetPathTemplate ns id ∧
    GcsEvalSetResultsStorageManager.get_eval_set_result_path ns id =
      gcsEvalSetResultPathTemplate ns id ∧
    LocalEvalSetStorageManager.get_eval_set_path root ns id =
      localEvalSetPathTemplate root ns id ∧
    LocalEvalSetResultsStorageManager.get_eval_set_result_path root ns id =
      localEvalSetResultPathTemplate root ns id :=
  ⟨gcs_set_path_eq_template ns id, gcs_result_path_eq_template ns id,
    local_set_path_eq_template root ns id hroot hrootE hns hnsS hnsE hidS,
    local_result_path_eq_template root ns id hroot hrootE hns hnsS hnsE hidS⟩

/-- C3, witness: the amended theorem at root `"root"`, namespace
`"test_app"`, id `"test_eval_set"`. -/
theorem c3_path_templates_witness :
    GcsEvalSetStorageManager.get_eval_set_path "test_app" "test_eval_set" =
      gcsEvalSetPathTemplate "test_app" "test_eval_set" ∧
    GcsEvalSetResultsStorageManager.get_eval_set_result_path "test_app" "test_eval_set" =
      gcsEvalSetResultPathTemplate "test_app" "test_eval_set" ∧
    LocalEvalSetStorageManager.get_eval_set_path "root" "test_app" "test_eval_set" =
      localEvalSetPathTemplate "root" "test_app" "test_eval_set" ∧
    LocalEvalSetResultsStorageManager.get_eval_set_result_path "root" "test_app"
        "test_eval_set" =
      localEvalSetResultPathTemplate "root" "test_app" "test_eval_set" :=
  c3_path_templates "root" "test_app" "test_eval_set" (by decide) (by decide) (by decide)
    (by decide) (by decide) (by decide)

/-! ## Claim C8: bucket existence check at construction -/

/-- C8: constructing either object-store manager against a bucket the
provider reports as non-existent raises a `ValueError` naming the bucket,
before any save/load/list; when the bucket exists, construction succeeds
and returns the manager's bucket unchanged. -/
theorem c8_init_bucket_check (b : GcsBucket) :
    (b.present = false →
      GcsEvalSetStorageManager.init b = .error (.valueError ("Bucket `" ++ b.bucketName ++
        "` does not exist. Please create it before using the GcsEvalSetStorageManager.")) ∧
      GcsEvalSetResultsStorageManager.init b = .error (.valueError ("Bucket `" ++
        b.bucketName ++
        "` does not exist. Please create it before using the GcsEvalSetResultsStorageManager."))) ∧
    (b.present = true →
      GcsEvalSetStorageManager.init b = .ok b ∧
      GcsEvalSetResultsStorageManager.init b = .ok b) := by
  constructor
  · intro h
    constructor <;>
      simp [GcsEvalSetStorageManager.init, GcsEvalSetResultsStorageManager.init,
        GcsBucket.bExists, h]
  · intro h
    constructor <;>
      simp [GcsEvalSetStorageManager.init, GcsEvalSetResultsStorageManager.init,
        GcsBucket.bExists, h]

/-- C8, witness: an absent bucket named `"bkt"` is rejected with the
message naming it; a present one is accepted. -/
theorem c8_init_bucket_check_witness :
    GcsEvalSetStorageManager.init ⟨"bkt", [], false, []⟩ =
      .error (.valueError ("Bucket `" ++ "bkt" ++
        "` does not exist. Please create it before using the GcsEvalSetStorageManager.")) ∧
    GcsEvalSetStorageManager.init ⟨"bkt", [], true, []⟩ = .ok ⟨"bkt", [], true, []⟩ :=
  ⟨((c8_init_bucket_check ⟨"bkt", [], false, []⟩).1 rfl).1,
    ((c8_init_bucket_check ⟨"bkt", [], true, []⟩).2 rfl).1⟩

/-! ## Claim C5: provider not-found on list becomes a descriptive error -/

/-- C5: when the prefix query reports not-found (the provider has no
record of the bucket/prefix), both object-store list operations raise a
`ValueError` whose message names the namespace and the bucket. -/
theorem c5_list_not_found_error (b : GcsBucket) (app : String)
    (h : b.present = false) :
    GcsEvalSetStorageManager.list_eval_sets b app =
      .error (.valueError ("App `" ++ app ++ "` not found in GCS bucket `" ++
        b.bucketName ++ "`.")) ∧
    GcsEvalSetResultsStorageManager.list_eval_set_results b app =
      .error (.valueError ("App `" ++ app ++ "` not found in GCS bucket `" ++
        b.bucketName ++ "`.")) := by
  constructor <;>
    simp [GcsEvalSetStorageManager.list_eval_sets,
      GcsEvalSetResultsStorageManager.list_eval_set_results, GcsBucket.listBlobs, h]

/-- C5, witness: listing `"test_app"` against the vanished bucket
`"test_bucket"` produces the error naming both. -/
theorem c5_list_not_found_error_witness :
    GcsEvalSetStorageManager.list_eval_sets ⟨"test_bucket", [], false, []⟩ "test_app" =
      .error (.valueError ("App `" ++ "test_app" ++ "` not found in GCS bucket `" ++
        "test_bucket" ++ "`.")) :=
  (c5_list_not_found_error ⟨"test_bucket", [], false, []⟩ "test_app" rfl).1

/-! ## Claim C7: load on an absent key returns none; other failures propagate -/

/-- C7: on both backends, `load` at a path that was never written returns
`none` (not an error); a read failure other than not-found (an `OSError`
such as permissions, or malformed content rejected by the document
parser) propagates.  Stated for the local results manager and the GCS
eval-set manager, the two cited implementations, one per backend. -/
theorem c7_load_absent_none (valid : String → Bool) (fs : LocalFS) (b : GcsBucket)
    (path : String) :
    (lookupKey fs.files path = none → path ∉ fs.badPaths →
      LocalEvalSetResultsStorageManager.load_eval_set_result valid fs path = .ok none) ∧
    (path ∈ fs.badPaths →
      LocalEvalSetResultsStorageManager.load_eval_set_result valid fs path =
        .error (.osError path)) ∧
    (∀ c, lookupKey fs.files path = some c → path ∉ fs.badPaths →
      valid c = false →
      LocalEvalSetResultsStorageManager.load_eval_set_result valid fs path =
        .error (.validationError c)) ∧
    (b.present = true → path ∉ b.badBlobs → lookupKey b.blobs path = none →
      GcsEvalSetStorageManager.load_eval_set valid b path = .ok none) ∧
    (b.present = true → path ∈ b.badBlobs →
      GcsEvalSetStorageManager.load_eval_set valid b path = .error (.osError path)) ∧
    (∀ c, b.present = true → path ∉ b.badBlobs →
      lookupKey b.blobs path = some c → valid c = false →
      GcsEvalSetStorageManager.load_eval_set valid b path = .error (.validationError c)) := by
  refine ⟨?_, ?_, ?_, ?_, ?_, ?_⟩
  · intro h1 h2
    simp [LocalEvalSetResultsStorageManager.load_eval_set_result, LocalFS.read, h1, h2]
  · intro h1
    simp [LocalEvalSetResultsStorageManager.load_eval_set_result, LocalFS.read, h1]
  · intro c h1 h2 h3
    simp [LocalEvalSetResultsStorageManager.load_eval_set_result, LocalFS.read, h1, h2,
      EvalSetResult.model_validate_json, h3, Except.map]
  · intro h1 h2 h3
    simp [GcsEvalSetStorageManager.load_eval_set, GcsBucket.downloadAsText, h1, h2, h3]
  · intro h1 h2
    simp [GcsEvalSetStorageManager.load_eval_set, GcsBucket.downloadAsText, h1, h2]
  · intro c h1 h2 h3 h4
    simp [GcsEvalSetStorageManager.load_eval_set, GcsBucket.downloadAsText, h1, h2, h3,
      EvalSet.model_validate_json, h4, Except.map]

/-- C7, witness: on an empty filesystem and an empty (present) bucket,
loading the never-written result path of `("app", "r")` and the
never-written eval-set path of `("app", "s")` both return `none`. -/
theorem c7_load_absent_none_witness :
    LocalEvalSetResultsStorageManager.load_eval_set_result (fun _ => true) ⟨[], [], []⟩
      (LocalEvalSetResultsStorageManager.get_eval_set_result_path "root" "app" "r") =
      .ok none ∧
    GcsEvalSetStorageManager.load_eval_set (fun _ => true) ⟨"bkt", [], true, []⟩
      (GcsEvalSetStorageManager.get_eval_set_path "app" "s") = .ok none :=
  ⟨(c7_load_absent_none (fun _ => true) ⟨[], [], []⟩ ⟨"bkt", [], true, []⟩
      (LocalEvalSetResultsStorageManager.get_eval_set_result_path "root" "app" "r")).1
    rfl (by decide),
    (c7_load_absent_none (fun _ => true) ⟨[], [], []⟩ ⟨"bkt", [], true, []⟩
      (GcsEvalSetStorageManager.get_eval_set_path "app" "s")).2.2.2.1 rfl (by decide) rfl⟩

/-! ## Claim C1: id/namespace validation on the object-store eval-set backend -/

/-- C1, counterexample.  The claim says every key-constructing operation of
`GcsEvalSetStorageManager` rejects an id or namespace not matching
`[a-zA-Z0-9_]+` before building the key.  In the code `_validate_id` is
never invoked: with the invalid namespace `"bad app"` and invalid id
`"bad id"`, `get_eval_set_path` returns a key, `save_eval_set` uploads to
it, and `list_eval_sets` succeeds — no error is raised. -/
theorem c1_validation_cex :
    matchesIdPattern "bad id" = false ∧
    matchesIdPattern "bad app" = false ∧
    GcsEvalSetStorageManager.get_eval_set_path "bad app" "bad id" =
      "bad app/evals/eval_sets/bad id.evalset.json" ∧
    GcsEvalSetStorageManager.save_eval_set ⟨"bkt", [], true, []⟩
      (GcsEvalSetStorageManager.get_eval_set_path "bad app" "bad id") ⟨"doc"⟩ =
      .ok ⟨"bkt", [("bad app/evals/eval_sets/bad id.evalset.json", "doc")], true, []⟩ ∧
    GcsEvalSetStorageManager.list_eval_sets ⟨"bkt", [], true, []⟩ "bad app" = .ok [] :=
  ⟨by decide, by decide, by decide, rfl, rfl⟩

/-- C1 (amended): `GcsEvalSetStorageManager` defines a validator
`_validate_id` that succeeds exactly on strings matching
`^[a-zA-Z0-9_]+$` and otherwise raises a `ValueError` naming the
offending field and the required pattern; but no key-constructing
operation invokes it: `get_eval_set_path` returns the key
`{app}/evals/eval_sets/{id}.evalset.json` for every input, and
`list_eval_sets` on a present bucket succeeds for every namespace. -/
theorem c1_validator_unused (id_name id_value app id : String) (b : GcsBucket) :
    (GcsEvalSetStorageManager.validate_id id_name id_value = .ok () ↔
      matchesIdPattern id_value = true) ∧
    (matchesIdPattern id_value = false →
      GcsEvalSetStorageManager.validate_id id_name id_value =
        .error (.valueError ("Invalid " ++ id_name ++ ". " ++ id_name ++
          " should have the `^[a-zA-Z0-9_]+$` format"))) ∧
    GcsEvalSetStorageManager.get_eval_set_path app id = gcsEvalSetPathTemplate app id ∧
    (b.present = true → ∃ r, GcsEvalSetStorageManager.list_eval_sets b app = .ok r) := by
  refine ⟨?_, ?_, gcs_set_path_eq_template app id, ?_⟩
  · constructor
    · intro h
      by_cases hm : matchesIdPattern id_value = true
      · exact hm
      · rw [GcsEvalSetStorageManager.validate_id, if_neg hm] at h
        cases h
    · intro h
      rw [GcsEvalSetStorageManager.validate_id, if_pos h]
  · intro h
    rw [GcsEvalSetStorageManager.validate_id,
      if_neg (by rw [h]; exact Bool.false_ne_true)]
  · intro h
    rw [GcsEvalSetStorageManager.list_eval_sets, GcsBucket.listBlobs, if_pos h]
    exact ⟨_, rfl⟩

/-- C1, witness: `_validate_id` accepts `"valid_id123"`, rejects
`"invalid id"` with the message naming the field and the pattern (the
unit test's scenario), and `list_eval_sets` on an empty present bucket
with the invalid namespace `"invalid id"` still succeeds. -/
theorem c1_validator_unused_witness :
    GcsEvalSetStorageManager.validate_id "eval_set_id" "valid_id123" = .ok () ∧
    GcsEvalSetStorageManager.validate_id "eval_set_id" "invalid id" =
      .error (.valueError ("Invalid " ++ "eval_set_id" ++ ". " ++ "eval_set_id" ++
        " should have the `^[a-zA-Z0-9_]+$` format")) ∧
    ∃ r, GcsEvalSetStorageManager.list_eval_sets ⟨"bkt", [], true, []⟩ "invalid id" =
      .ok r :=
  ⟨(c1_validator_unused "eval_set_id" "valid_id123" "a" "b"
        ⟨"bkt", [], true, []⟩).1.mpr (by decide),
    (c1_validator_unused "eval_set_id" "invalid id" "a" "b"
        ⟨"bkt", [], true, []⟩).2.1 (by decide),
    (c1_validator_unused "eval_set_id" "invalid id" "invalid id" "b"
        ⟨"bkt", [], true, []⟩).2.2.2 rfl⟩

/-! ## Claim C2: local list on a missing namespace directory -/

/-- C2, counterexample.  The claim says both local list operations return
an empty sequence when the namespace directory does not exist.  On an
empty filesystem `LocalEvalSetStorageManager.list_eval_sets` calls
`os.listdir` with no existence guard and raises `FileNotFoundError`
instead. -/
theorem c2_local_list_missing_cex :
    LocalEvalSetStorageManager.list_eval_sets ⟨[], [], []⟩ "root" "app" =
      .error (.fileNotFound "root/app") := rfl

/-- C2 (amended): when the namespace's directory does not exist,
`LocalEvalSetResultsStorageManager.list_eval_set_results` returns `[]`
without error (it checks existence first), but
`LocalEvalSetStorageManager.list_eval_sets` raises `FileNotFoundError`
for the namespace directory (it has no existence guard before
`os.listdir`). -/
theorem c2_local_list_missing_namespace (fs : LocalFS) (root app : String)
    (h1 : fs.pathExists (LocalEvalSetResultsStorageManager.getEvalHistoryDir root app) =
      false)
    (h2 : fs.pathExists (pjoin root app) = false) :
    LocalEvalSetResultsStorageManager.list_eval_set_results fs root app = .ok [] ∧
    LocalEvalSetStorageManager.list_eval_sets fs root app =
      .error (.fileNotFound (pjoin root app)) := by
  constructor
  · simp [LocalEvalSetResultsStorageManager.list_eval_set_results, h1]
  · rw [LocalEvalSetStorageManager.list_eval_sets, LocalFS.listdir, if_neg]
    rintro ⟨hne, hcontains⟩
    rw [LocalFS.pathExists, if_neg hne] at h2
    rw [Bool.or_eq_false_iff] at h2
    rw [h2.1] at hcontains
    exact Bool.false_ne_true hcontains

/-- C2, witness: on the empty filesystem with root `"root"` and namespace
`"app"`, the results manager lists `[]` while the eval-set manager raises. -/
theorem c2_local_list_missing_namespace_witness :
    LocalEvalSetResultsStorageManager.list_eval_set_results ⟨[], [], []⟩ "root" "app" =
      .ok [] ∧
    LocalEvalSetStorageManager.list_eval_sets ⟨[], [], []⟩ "root" "app" =
      .error (.fileNotFound (pjoin "root" "app")) :=
  c2_local_list_missing_namespace ⟨[], [], []⟩ "root" "app" (by decide) (by decide)

/-! ## Save/load helper lemmas -/

theorem LocalFS.save_ok {fs : LocalFS} {P v : String} (hdir : pdirname P ≠ "") :
    ∃ fs', fs.save P v = .ok fs' ∧ fs'.files = replaceKey fs.files P v ∧
      fs'.badPaths = fs.badPaths := by
  rw [LocalFS.save]
  by_cases hex : fs.pathExists (pdirname P) = true
  · rw [if_pos hex]
    exact ⟨_, rfl, rfl, rfl⟩
  · rw [if_neg hex, LocalFS.makedirs, if_neg hdir]
    exact ⟨_, rfl, rfl, rfl⟩

theorem result_load_of_files {valid : String → Bool} {fs' fs : LocalFS} {P : String}
    {d : EvalSetResult}
    (hfiles : fs'.files = replaceKey fs.files P d.ser) (hbad : fs'.badPaths = fs.badPaths)
    (hnb : P ∉ fs.badPaths) (hv : valid d.ser = true) :
    LocalEvalSetResultsStorageManager.load_eval_set_result valid fs' P = .ok (some d) := by
  rw [LocalEvalSetResultsStorageManager.load_eval_set_result, LocalFS.read, hbad,
    contains_eq_false_iff.mpr hnb, hfiles, lookupKey_replaceKey_self]
  simp [EvalSetResult.model_validate_json, hv, Except.map]

theorem gcs_set_load_of_blobs {valid : String → Bool} {b' b : GcsBucket} {P : String}
    {e : EvalSet}
    (hblobs : b'.blobs = replaceKey b.blobs P e.ser) (hp : b'.present = true)
    (hbb : b'.badBlobs = b.badBlobs) (hnb : P ∉ b.badBlobs) (hv : valid e.ser = true) :
    GcsEvalSetStorageManager.load_eval_set valid b' P = .ok (some e) := by
  rw [GcsEvalSetStorageManager.load_eval_set, GcsBucket.downloadAsText, hbb,
    contains_eq_false_iff.mpr hnb, hblobs, lookupKey_replaceKey_self]
  simp [hp, EvalSet.model_validate_json, hv, Except.map]

/-! ## Claim C4: save/load round trip -/

/-- C4: saving a document at the resolved path and loading from the same
path returns a document whose serialized form equals the saved one
byte-for-byte, on both the local backend (the results manager, at a path
whose parent is creatable and not permission-blocked) and the
object-store backend (the eval-set manager, on a present bucket with an
unblocked key), assuming — per the spec's document contract — that the
serialized form parses back (`valid`). -/
theorem c4_round_trip (valid : String → Bool) (fs : LocalFS) (b : GcsBucket)
    (root app id : String) (d : EvalSetResult) (e : EvalSet)
    (hdir : pdirname (LocalEvalSetResultsStorageManager.get_eval_set_result_path root app
      id) ≠ "")
    (hbad : LocalEvalSetResultsStorageManager.get_eval_set_result_path root app id ∉
      fs.badPaths)
    (hv : valid d.ser = true)
    (hb : b.present = true)
    (hbbad : GcsEvalSetStorageManager.get_eval_set_path app id ∉ b.badBlobs)
    (hve : valid e.ser = true) :
    (∃ fs', LocalEvalSetResultsStorageManager.save_eval_set_result fs
        (LocalEvalSetResultsStorageManager.get_eval_set_result_path root app id) d =
          .ok fs' ∧
      LocalEvalSetResultsStorageManager.load_eval_set_result valid fs'
        (LocalEvalSetResultsStorageManager.get_eval_set_result_path root app id) =
          .ok (some d)) ∧
    (∃ b', GcsEvalSetStorageManager.save_eval_set b
        (GcsEvalSetStorageManager.get_eval_set_path app id) e = .ok b' ∧
      GcsEvalSetStorageManager.load_eval_set valid b'
        (GcsEvalSetStorageManager.get_eval_set_path app id) = .ok (some e)) := by
  constructor
  · rcases LocalFS.save_ok (v := d.ser) hdir with ⟨fs', hsave, hfiles, hbp⟩
    exact ⟨fs', hsave, result_load_of_files hfiles hbp hbad hv⟩
  · refine ⟨({ b with blobs := (replaceKey b.blobs
      (GcsEvalSetStorageManager.get_eval_set_path app id) e.ser) }), ?_, ?_⟩
    · rw [GcsEvalSetStorageManager.save_eval_set, GcsBucket.uploadFromString, if_pos hb]
      rfl
    · exact gcs_set_load_of_blobs rfl hb rfl hbbad hve

/-- C4, witness: round trip of the result document `"serialized"` at
`("app", "r1")` on the empty filesystem, and of an eval set at the same
ids on an empty present bucket, with every serialized text valid. -/
theorem c4_round_trip_witness :
    (∃ fs', LocalEvalSetResultsStorageManager.save_eval_set_result ⟨[], [], []⟩
        (LocalEvalSetResultsStorageManager.get_eval_set_result_path "root" "app" "r1")
        ⟨"serialized"⟩ = .ok fs' ∧
      LocalEvalSetResultsStorageManager.load_eval_set_result (fun _ => true) fs'
        (LocalEvalSetResultsStorageManager.get_eval_set_result_path "root" "app" "r1") =
          .ok (some ⟨"serialized"⟩)) ∧
    (∃ b', GcsEvalSetStorageManager.save_eval_set ⟨"bkt", [], true, []⟩
        (GcsEvalSetStorageManager.get_eval_set_path "app" "r1") ⟨"serialized"⟩ =
          .ok b' ∧
      GcsEvalSetStorageManager.load_eval_set (fun _ => true) b'
        (GcsEvalSetStorageManager.get_eval_set_path "app" "r1") =
          .ok (some ⟨"serialized"⟩)) :=
  c4_round_trip (fun _ => true) ⟨[], [], []⟩ ⟨"bkt", [], true, []⟩ "root" "app" "r1"
    ⟨"serialized"⟩ ⟨"serialized"⟩ (by decide) (by decide) rfl rfl (by decide) rfl

/-! ## Listing lemmas -/

theorem pySorted_perm (l : List String) : (pySorted l).Perm l := List.perm_insertionSort _ l

theorem pySorted_sorted (l : List String) : (pySorted l).Sorted (· ≤ ·) :=
  List.sorted_insertionSort _ l

theorem pySorted_singleton (i : String) : pySorted [i] = [i] := rfl

theorem filterMap_congr_some {α β : Type} {h : α → Option β} {g : α → β} :
    ∀ {l : List α}, (∀ a ∈ l, h a = some (g a)) → l.filterMap h = l.map g := by
  intro l
  induction l with
  | nil => intro _; rfl
  | cons a as ih =>
    intro hl
    rw [List.filterMap_cons, hl a (List.mem_cons_self a as), List.map_cons,
      ih fun x hx => hl x (List.mem_cons_of_mem _ hx)]

theorem ext_slash_free_set : ∀ c ∈ evalSetFileExtension.data, c ≠ '/' := by decide

theorem ext_slash_free_result : ∀ c ∈ evalSetResultFileExtension.data, c ≠ '/' := by decide

theorem append_slash_free {a b : String} (ha : ∀ c ∈ a.data, c ≠ '/')
    (hb : ∀ c ∈ b.data, c ≠ '/') : ∀ c ∈ (a ++ b).data, c ≠ '/' := by
  intro c hc
  rw [String.data_append] at hc
  rcases List.mem_append.mp hc with h1 | h2
  · exact ha c h1
  · exact hb c h2

theorem append_ext_ne_empty {id ext : String} (h : ext ≠ "") : id ++ ext ≠ "" :=
  append_ne_empty_right h

theorem string_append_ext_inj {i j ext : String}
    (h : i ++ ext = j ++ ext) : i = j :=
  string_append_right_cancel h

theorem splitLastSlash_cons (c : Char) (cs : List Char) :
    splitLastSlash (c :: cs) =
      if (splitLastSlash cs).1.isEmpty then
        (if c = '/' then (['/'], cs) else ([], c :: cs))
      else (c :: (splitLastSlash cs).1, (splitLastSlash cs).2) := rfl

theorem splitLastSlash_snd_suffix : ∀ (l : List Char), (splitLastSlash l).2 <:+ l := by
  intro l
  induction l with
  | nil => exact List.nil_suffix
  | cons c cs ih =>
    rw [splitLastSlash_cons]
    by_cases hfst : (splitLastSlash cs).1.isEmpty = true
    · rw [if_pos hfst]
      by_cases hc : c = '/'
      · rw [if_pos hc]
        exact List.suffix_cons c cs
      · rw [if_neg hc]
    · rw [if_neg hfst]
      exact ih.trans (List.suffix_cons c cs)

theorem strEndsWith_splitSlashLast {n ext : String}
    (h : strEndsWith n ext = false) : strEndsWith (splitSlashLast n) ext = false := by
  rw [Bool.eq_false_iff] at h ⊢
  intro hc
  apply h
  apply strEndsWith_iff.mpr
  exact (strEndsWith_iff.mp hc).trans (splitLastSlash_snd_suffix n.data)

/-! ### GCS eval-set listing lemmas -/

theorem gcs_set_path_decompose (app i : String) :
    GcsEvalSetStorageManager.get_eval_set_path app i =
      GcsEvalSetStorageManager.getEvalSetsDir app ++ "/" ++ (i ++ evalSetFileExtension) := by
  rw [GcsEvalSetStorageManager.get_eval_set_path]
  exact String.append_assoc _ _ _

theorem gcs_set_recover {app i : String} (h : ∀ c ∈ i.data, c ≠ '/') :
    removeSuffix (splitSlashLast (GcsEvalSetStorageManager.get_eval_set_path app i))
      evalSetFileExtension = i := by
  have hfa : ∀ c ∈ (i ++ evalSetFileExtension).data, c ≠ '/' :=
    append_slash_free h ext_slash_free_set
  rw [gcs_set_path_decompose, splitSlashLast_append hfa,
    removeSuffix_append i evalSetFileExtension (by decide)]

theorem gcs_set_path_startsWith (app i : String) :
    strStartsWith (GcsEvalSetStorageManager.get_eval_set_path app i)
      (GcsEvalSetStorageManager.getEvalSetsDir app) = true := by
  apply strStartsWith_iff.mpr
  rw [gcs_set_path_decompose, data_append_slash]
  exact ⟨'/' :: (i ++ evalSetFileExtension).data, rfl⟩

theorem gcs_set_path_inj {app i j : String}
    (h : GcsEvalSetStorageManager.get_eval_set_path app i =
      GcsEvalSetStorageManager.get_eval_set_path app j) : i = j := by
  rw [gcs_set_path_decompose, gcs_set_path_decompose] at h
  exact string_append_ext_inj (string_append_left_cancel h)

theorem gcs_set_list_of_keys {b : GcsBucket} (app : String) {ids : List String}
    (hp : b.present = true)
    (hkeys : b.blobs.map Prod.fst =
      ids.map (GcsEvalSetStorageManager.get_eval_set_path app))
    (hslash : ∀ i ∈ ids, ∀ c ∈ i.data, c ≠ '/') :
    GcsEvalSetStorageManager.list_eval_sets b app = .ok (pySorted ids) := by
  have hlb : b.listBlobs (GcsEvalSetStorageManager.getEvalSetsDir app) =
      .ok (ids.map (GcsEvalSetStorageManager.get_eval_set_path app)) := by
    rw [GcsBucket.listBlobs, if_pos hp, hkeys, List.filter_eq_self.mpr]
    intro n hn
    rcases List.mem_map.mp hn with ⟨i, _, rfl⟩
    exact gcs_set_path_startsWith app i
  rw [GcsEvalSetStorageManager.list_eval_sets, hlb]
  show Except.ok (pySorted ((ids.map (GcsEvalSetStorageManager.get_eval_set_path app)).map
    fun n => removeSuffix (splitSlashLast n) evalSetFileExtension)) =
    Except.ok (pySorted ids)
  have hmap : ∀ i ∈ ids,
      ((fun n => removeSuffix (splitSlashLast n) evalSetFileExtension) ∘
        GcsEvalSetStorageManager.get_eval_set_path app) i = id i :=
    fun i hi => gcs_set_recover (hslash i hi)
  rw [List.map_map, List.map_congr_left hmap, List.map_id]

/-! ### GCS eval-set-result listing lemmas -/

theorem gcs_result_path_decompose (app i : String) :
    GcsEvalSetResultsStorageManager.get_eval_set_result_path app i =
      GcsEvalSetResultsStorageManager.getEvalHistoryDir app ++ "/" ++
        (i ++ evalSetResultFileExtension) := by
  rw [GcsEvalSetResultsStorageManager.get_eval_set_result_path]
  exact String.append_assoc _ _ _

theorem gcs_result_recover {app i : String} (h : ∀ c ∈ i.data, c ≠ '/') :
    removeSuffix
      (splitSlashLast (GcsEvalSetResultsStorageManager.get_eval_set_result_path app i))
      evalSetResultFileExtension = i := by
  have hfa : ∀ c ∈ (i ++ evalSetResultFileExtension).data, c ≠ '/' :=
    append_slash_free h ext_slash_free_result
  rw [gcs_result_path_decompose, splitSlashLast_append hfa,
    removeSuffix_append i evalSetResultFileExtension (by decide)]

theorem gcs_result_path_startsWith (app i : String) :
    strStartsWith (GcsEvalSetResultsStorageManager.get_eval_set_result_path app i)
      (GcsEvalSetResultsStorageManager.getEvalHistoryDir app) = true := by
  apply strStartsWith_iff.mpr
  rw [gcs_result_path_decompose, data_append_slash]
  exact ⟨'/' :: (i ++ evalSetResultFileExtension).data, rfl⟩

theorem gcs_result_path_inj {app i j : String}
    (h : GcsEvalSetResultsStorageManager.get_eval_set_result_path app i =
      GcsEvalSetResultsStorageManager.get_eval_set_result_path app j) : i = j := by
  rw [gcs_result_path_decompose, gcs_result_path_decompose] at h
  exact string_append_ext_inj (string_append_left_cancel h)

theorem gcs_result_list_of_keys {b : GcsBucket} (app : String) {ids : List String}
    (hp : b.present = true)
    (hkeys : b.blobs.map Prod.fst =
      ids.map (GcsEvalSetResultsStorageManager.get_eval_set_result_path app))
    (hslash : ∀ i ∈ ids, ∀ c ∈ i.data, c ≠ '/') :
    GcsEvalSetResultsStorageManager.list_eval_set_results b app = .ok (pySorted ids) := by
  have hlb : b.listBlobs (GcsEvalSetResultsStorageManager.getEvalHistoryDir app) =
      .ok (ids.map (GcsEvalSetResultsStorageManager.get_eval_set_result_path app)) := by
    rw [GcsBucket.listBlobs, if_pos hp, hkeys, List.filter_eq_self.mpr]
    intro n hn
    rcases List.mem_map.mp hn with ⟨i, _, rfl⟩
    exact gcs_result_path_startsWith app i
  rw [GcsEvalSetResultsStorageManager.list_eval_set_results, hlb]
  show Except.ok (pySorted
    ((ids.map (GcsEvalSetResultsStorageManager.get_eval_set_result_path app)).map
      fun n => removeSuffix (splitSlashLast n) evalSetResultFileExtension)) =
    Except.ok (pySorted ids)
  have hmap : ∀ i ∈ ids,
      ((fun n => removeSuffix (splitSlashLast n) evalSetResultFileExtension) ∘
        GcsEvalSetResultsStorageManager.get_eval_set_result_path app) i = id i :=
    fun i hi => gcs_result_recover (hslash i hi)
  rw [List.map_map, List.map_congr_left hmap, List.map_id]

/-! ## Save scenarios (folds of save over a list of ids) -/

/-- Saving a fixed eval set under each id of a list in order, at the
resolved GCS keys (the listing-determinism scenario). -/
def GcsEvalSetStorageManager.saveAll (b : GcsBucket) (app : String) (e : EvalSet) :
    List String → Except PyErr GcsBucket
  | [] => .ok b
  | i :: is =>
    match GcsEvalSetStorageManager.save_eval_set b
        (GcsEvalSetStorageManager.get_eval_set_path app i) e with
    | .ok b' => GcsEvalSetStorageManager.saveAll b' app e is
    | .error err => .error err

/-- Saving a fixed result under each id of a list in order, at the
resolved GCS keys. -/
def GcsEvalSetResultsStorageManager.saveAll (b : GcsBucket) (app : String)
    (d : EvalSetResult) : List String → Except PyErr GcsBucket
  | [] => .ok b
  | i :: is =>
    match GcsEvalSetResultsStorageManager.save_eval_set_result b
        (GcsEvalSetResultsStorageManager.get_eval_set_result_path app i) d with
    | .ok b' => GcsEvalSetResultsStorageManager.saveAll b' app d is
    | .error err => .error err

/-- Saving a fixed eval set under each id of a list in order, at the
resolved local paths. -/
def LocalEvalSetStorageManager.saveAll (fs : LocalFS) (root app : String) (e : EvalSet) :
    List String → Except PyErr LocalFS
  | [] => .ok fs
  | i :: is =>
    match LocalEvalSetStorageManager.save_eval_set fs
        (LocalEvalSetStorageManager.get_eval_set_path root app i) e with
    | .ok fs' => LocalEvalSetStorageManager.saveAll fs' root app e is
    | .error err => .error err

/-- The empty filesystem. -/
def LocalFS.empty : LocalFS := ⟨[], [], []⟩

/-- Overwrite one object of a bucket (the state `upload_from_string`
produces on a present bucket). -/
def GcsBucket.withBlob (b : GcsBucket) (k v : String) : GcsBucket :=
  { b with blobs := replaceKey b.blobs k v }

theorem upload_ok {b : GcsBucket} {k v : String} (hp : b.present = true) :
    b.uploadFromString k v = .ok (b.withBlob k v) := by
  rw [GcsBucket.uploadFromString, if_pos hp]
  rfl

theorem gcs_result_saveAll_ok (app : String) (d : EvalSetResult) :
    ∀ (ids : List String) (b : GcsBucket), b.present = true →
    (∀ i ∈ ids, GcsEvalSetResultsStorageManager.get_eval_set_result_path app i ∉
      b.blobs.map Prod.fst) →
    ids.Pairwise (fun i j => GcsEvalSetResultsStorageManager.get_eval_set_result_path app i ≠
      GcsEvalSetResultsStorageManager.get_eval_set_result_path app j) →
    ∃ b', GcsEvalSetResultsStorageManager.saveAll b app d ids = .ok b' ∧
      b'.present = true ∧ b'.bucketName = b.bucketName ∧
      b'.blobs.map Prod.fst = b.blobs.map Prod.fst ++
        ids.map (GcsEvalSetResultsStorageManager.get_eval_set_result_path app) := by
  intro ids
  induction ids with
  | nil =>
    intro b hp _ _
    exact ⟨b, rfl, hp, rfl, by simp⟩
  | cons i is ih =>
    intro b hp hfresh hpw
    have hsave : GcsEvalSetResultsStorageManager.save_eval_set_result b
        (GcsEvalSetResultsStorageManager.get_eval_set_result_path app i) d =
        .ok (b.withBlob (GcsEvalSetResultsStorageManager.get_eval_set_result_path app i)
          d.ser) := by
      rw [GcsEvalSetResultsStorageManager.save_eval_set_result, upload_ok hp]
      rfl
    have hkeys1 : (b.withBlob (GcsEvalSetResultsStorageManager.get_eval_set_result_path app
        i) d.ser).blobs.map Prod.fst =
        b.blobs.map Prod.fst ++
          [GcsEvalSetResultsStorageManager.get_eval_set_result_path app i] :=
      replaceKey_map_fst_fresh _ (hfresh i (List.mem_cons_self i is))
    have hfresh2 : ∀ j ∈ is, GcsEvalSetResultsStorageManager.get_eval_set_result_path app j ∉
        (b.withBlob (GcsEvalSetResultsStorageManager.get_eval_set_result_path app i)
          d.ser).blobs.map Prod.fst := by
      intro j hj
      rw [hkeys1]
      intro hmem
      rcases List.mem_append.mp hmem with h1 | h2
      · exact hfresh j (List.mem_cons_of_mem _ hj) h1
      · exact (List.rel_of_pairwise_cons hpw hj) (List.mem_singleton.mp h2).symm
    rcases ih (b.withBlob (GcsEvalSetResultsStorageManager.get_eval_set_result_path app i)
        d.ser) hp hfresh2 hpw.of_cons with ⟨b2, hrec, hp2, hname, hkeys2⟩
    refine ⟨b2, ?_, hp2, hname, ?_⟩
    · rw [GcsEvalSetResultsStorageManager.saveAll, hsave]
      exact hrec
    · rw [hkeys2, hkeys1]
      simp [List.append_assoc]

/-! ### Local eval-set listing lemmas -/

theorem local_set_path_props {root app i : String} (hJ : pjoin root app ≠ "")
    (hsl : ∀ c ∈ i.data, c ≠ '/') :
    pdirname (LocalEvalSetStorageManager.get_eval_set_path root app i) =
      normDir (pjoin root app) ∧
    pbasename (LocalEvalSetStorageManager.get_eval_set_path root app i) =
      i ++ evalSetFileExtension :=
  pjoin_split hJ (append_ext_ne_empty (by decide))
    (append_slash_free hsl ext_slash_free_set)

theorem local_set_path_inj {root app i j : String} (hJ : pjoin root app ≠ "")
    (hi : ∀ c ∈ i.data, c ≠ '/') (hj : ∀ c ∈ j.data, c ≠ '/')
    (h : LocalEvalSetStorageManager.get_eval_set_path root app i =
      LocalEvalSetStorageManager.get_eval_set_path root app j) : i = j := by
  have hbi := (local_set_path_props hJ hi).2
  have hbj := (local_set_path_props hJ hj).2
  rw [h, hbj] at hbi
  exact (string_append_ext_inj hbi).symm

theorem local_save_dir_exists {fs : LocalFS} {P v : String} {D : String}
    (hpd : pdirname P = normDir D) (hD : D ≠ "")
    (hdirs : fs.dirs.contains (normDir D) = true) :
    fs.save P v = .ok (fs.write P v) := by
  rw [LocalFS.save]
  have hex : fs.pathExists (pdirname P) = true := by
    rw [hpd, LocalFS.pathExists, if_neg (normDir_ne_empty hD), normDir_idem, hdirs,
      Bool.true_or]
  rw [if_pos hex]

theorem LocalFS.save_empty {P v : String} (h : pdirname P ≠ "") :
    LocalFS.empty.save P v = .ok ⟨[(P, v)], [normDir (pdirname P)], []⟩ := by
  rw [LocalFS.save]
  have hex : LocalFS.empty.pathExists (pdirname P) = false := by
    rw [LocalFS.pathExists, if_neg h]
    rfl
  rw [if_neg (by rw [hex]; exact Bool.false_ne_true), LocalFS.makedirs, if_neg h]
  rfl

theorem local_set_saveAll_go (root app : String) (e : EvalSet) :
    ∀ (ids : List String) (fs : LocalFS), pjoin root app ≠ "" →
    (∀ i ∈ ids, ∀ c ∈ i.data, c ≠ '/') →
    fs.dirs.contains (normDir (pjoin root app)) = true →
    (∀ i ∈ ids, LocalEvalSetStorageManager.get_eval_set_path root app i ∉
      fs.files.map Prod.fst) →
    ids.Pairwise (fun i j => LocalEvalSetStorageManager.get_eval_set_path root app i ≠
      LocalEvalSetStorageManager.get_eval_set_path root app j) →
    ∃ fs', LocalEvalSetStorageManager.saveAll fs root app e ids = .ok fs' ∧
      fs'.files.map Prod.fst = fs.files.map Prod.fst ++
        ids.map (LocalEvalSetStorageManager.get_eval_set_path root app) ∧
      fs'.dirs = fs.dirs ∧ fs'.badPaths = fs.badPaths := by
  intro ids
  induction ids with
  | nil =>
    intro fs _ _ _ _ _
    exact ⟨fs, rfl, by simp, rfl, rfl⟩
  | cons i is ih =>
    intro fs hJ hsl hdirs hfresh hpw
    have hpd := (local_set_path_props hJ (hsl i (List.mem_cons_self i is))).1
    have hsave : LocalEvalSetStorageManager.save_eval_set fs
        (LocalEvalSetStorageManager.get_eval_set_path root app i) e =
        .ok (fs.write (LocalEvalSetStorageManager.get_eval_set_path root app i) e.ser) := by
      rw [LocalEvalSetStorageManager.save_eval_set]
      exact local_save_dir_exists hpd hJ hdirs
    have hkeys1 : (fs.write (LocalEvalSetStorageManager.get_eval_set_path root app i)
        e.ser).files.map Prod.fst =
        fs.files.map Prod.fst ++ [LocalEvalSetStorageManager.get_eval_set_path root app i] :=
      replaceKey_map_fst_fresh _ (hfresh i (List.mem_cons_self i is))
    have hfresh2 : ∀ j ∈ is, LocalEvalSetStorageManager.get_eval_set_path root app j ∉
        (fs.write (LocalEvalSetStorageManager.get_eval_set_path root app i)
          e.ser).files.map Prod.fst := by
      intro j hj
      rw [hkeys1]
      intro hmem
      rcases List.mem_append.mp hmem with h1 | h2
      · exact hfresh j (List.mem_cons_of_mem _ hj) h1
      · exact (List.rel_of_pairwise_cons hpw hj) (List.mem_singleton.mp h2).symm
    rcases ih (fs.write (LocalEvalSetStorageManager.get_eval_set_path root app i) e.ser) hJ
      (fun j hj => hsl j (List.mem_cons_of_mem _ hj)) hdirs hfresh2 hpw.of_cons with
      ⟨fs2, hrec, hkeys2, hdirs2, hbad2⟩
    refine ⟨fs2, ?_, ?_, hdirs2, hbad2⟩
    · rw [LocalEvalSetStorageManager.saveAll, hsave]
      exact hrec
    · rw [hkeys2, hkeys1]
      simp [List.append_assoc]

theorem local_set_saveAll_empty (root app : String) (e : EvalSet) {ids : List String}
    (hJ : pjoin root app ≠ "")
    (hsl : ∀ i ∈ ids, ∀ c ∈ i.data, c ≠ '/')
    (hpw : ids.Pairwise (fun i j => LocalEvalSetStorageManager.get_eval_set_path root app i ≠
      LocalEvalSetStorageManager.get_eval_set_path root app j))
    (hne : ids ≠ []) :
    ∃ fs', LocalEvalSetStorageManager.saveAll LocalFS.empty root app e ids = .ok fs' ∧
      fs'.files.map Prod.fst =
        ids.map (LocalEvalSetStorageManager.get_eval_set_path root app) ∧
      fs'.dirs = [normDir (pjoin root app)] ∧ fs'.badPaths = [] := by
  rcases ids with - | ⟨i, is⟩
  · exact absurd rfl hne
  · have hpd := (local_set_path_props hJ (hsl i (List.mem_cons_self i is))).1
    have hsave : LocalEvalSetStorageManager.save_eval_set LocalFS.empty
        (LocalEvalSetStorageManager.get_eval_set_path root app i) e =
        .ok ⟨[(LocalEvalSetStorageManager.get_eval_set_path root app i, e.ser)],
          [normDir (pjoin root app)], []⟩ := by
      rw [LocalEvalSetStorageManager.save_eval_set,
        LocalFS.save_empty (by rw [hpd]; exact normDir_ne_empty hJ), hpd, normDir_idem]
      rfl
    have hdirs1 : ([normDir (pjoin root app)] : List String).contains
        (normDir (pjoin root app)) = true := by simp
    have hfresh1 : ∀ j ∈ is, LocalEvalSetStorageManager.get_eval_set_path root app j ∉
        ([(LocalEvalSetStorageManager.get_eval_set_path root app i, e.ser)].map
          Prod.fst) := by
      intro j hj hmem
      exact (List.rel_of_pairwise_cons hpw hj) (List.mem_singleton.mp (by simpa using hmem)).symm
    rcases local_set_saveAll_go root app e is
        ⟨[(LocalEvalSetStorageManager.get_eval_set_path root app i, e.ser)],
          [normDir (pjoin root app)], []⟩ hJ
        (fun j hj => hsl j (List.mem_cons_of_mem _ hj)) hdirs1 hfresh1 hpw.of_cons with
      ⟨fs2, hrec, hkeys2, hdirs2, hbad2⟩
    refine ⟨fs2, ?_, ?_, hdirs2, hbad2⟩
    · rw [LocalEvalSetStorageManager.saveAll, hsave]
      exact hrec
    · rw [hkeys2]
      simp

theorem local_set_list_of_state {fs : LocalFS} {root app : String} {ids : List String}
    (hJ : pjoin root app ≠ "")
    (hdirs : fs.dirs = [normDir (pjoin root app)])
    (hkeys : fs.files.map Prod.fst =
      ids.map (LocalEvalSetStorageManager.get_eval_set_path root app))
    (hslash : ∀ i ∈ ids, ∀ c ∈ i.data, c ≠ '/') :
    LocalEvalSetStorageManager.list_eval_sets fs root app = .ok (pySorted ids) := by
  have hld : fs.listdir (pjoin root app) =
      .ok (ids.map fun i => i ++ evalSetFileExtension) := by
    rw [LocalFS.listdir, if_pos ⟨hJ, by rw [hdirs]; simp⟩, hkeys, List.filterMap_map]
    apply congrArg
    apply filterMap_congr_some
    intro i hi
    have hp := local_set_path_props hJ (hslash i hi)
    show (if pdirname (LocalEvalSetStorageManager.get_eval_set_path root app i) =
      normDir (pjoin root app) then
        some (pbasename (LocalEvalSetStorageManager.get_eval_set_path root app i))
      else none) = some (i ++ evalSetFileExtension)
    rw [if_pos hp.1, hp.2]
  rw [LocalEvalSetStorageManager.list_eval_sets, hld]
  show Except.ok (pySorted ((((ids.map fun i => i ++ evalSetFileExtension).filter
      fun f => strEndsWith f evalSetFileExtension).map
      fun f => removeSuffix (pbasename f) evalSetFileExtension))) =
    Except.ok (pySorted ids)
  rw [List.filter_eq_self.mpr (by
    intro a ha
    rcases List.mem_map.mp ha with ⟨i, _, rfl⟩
    exact strEndsWith_append i evalSetFileExtension)]
  have hmap : ∀ i ∈ ids,
      ((fun f => removeSuffix (pbasename f) evalSetFileExtension) ∘
        fun i => i ++ evalSetFileExtension) i = id i := by
    intro i hi
    show removeSuffix (pbasename (i ++ evalSetFileExtension)) evalSetFileExtension = i
    rw [pbasename_no_slash (append_slash_free (hslash i hi) ext_slash_free_set),
      removeSuffix_append i evalSetFileExtension (by decide)]
  rw [List.map_map, List.map_congr_left hmap, List.map_id]

/-! ## Claim C6: listing determinism -/

/-- C6, counterexample.  The claim quantifies over arbitrary distinct ids.
For the id `"a/b"` (which contains a path separator) the object-store
results backend stores the blob at
`app/evals/eval_history/a/b.evalset_result.json` and `list` recovers only
the last slash-separated component: it returns `["b"]`, not `["a/b"]`. -/
theorem c6_listing_determinism_cex :
    GcsEvalSetResultsStorageManager.save_eval_set_result ⟨"bkt", [], true, []⟩
      (GcsEvalSetResultsStorageManager.get_eval_set_result_path "app" "a/b") ⟨"doc"⟩ =
      .ok ⟨"bkt", [("app/evals/eval_history/a/b.evalset_result.json", "doc")], true, []⟩ ∧
    GcsEvalSetResultsStorageManager.list_eval_set_results
      ⟨"bkt", [("app/evals/eval_history/a/b.evalset_result.json", "doc")], true, []⟩
      "app" = .ok ["b"] ∧
    (["b"] : List String) ≠ ["a/b"] :=
  ⟨rfl, rfl, by decide⟩

/-- C6 (amended): for any nonempty list of distinct ids none of which
contains `/`, saving them in any order under a namespace (from an empty
store, with a nonempty root for the local backend) makes `list` return
exactly those ids, sorted lexicographically ascending with no duplicates
— on the local eval-set backend and the object-store results backend. -/
theorem c6_listing_determinism (root app bname : String) (e : EvalSet) (d : EvalSetResult)
    (ids : List String) (hroot : root ≠ "") (hnd : ids.Nodup)
    (hslash : ∀ i ∈ ids, ∀ c ∈ i.data, c ≠ '/') (hne : ids ≠ []) :
    (∃ fs', LocalEvalSetStorageManager.saveAll LocalFS.empty root app e ids = .ok fs' ∧
      ∃ r, LocalEvalSetStorageManager.list_eval_sets fs' root app = .ok r ∧
        r.Perm ids ∧ r.Sorted (· ≤ ·)) ∧
    (∃ b', GcsEvalSetResultsStorageManager.saveAll ⟨bname, [], true, []⟩ app d ids =
        .ok b' ∧
      ∃ r, GcsEvalSetResultsStorageManager.list_eval_set_results b' app = .ok r ∧
        r.Perm ids ∧ r.Sorted (· ≤ ·)) := by
  have hJ : pjoin root app ≠ "" := pjoin_ne_empty hroot
  have hpwL : ids.Pairwise (fun i j =>
      LocalEvalSetStorageManager.get_eval_set_path root app i ≠
      LocalEvalSetStorageManager.get_eval_set_path root app j) :=
    hnd.imp_of_mem fun ha hb hne' heq =>
      hne' (local_set_path_inj hJ (hslash _ ha) (hslash _ hb) heq)
  have hpwG : ids.Pairwise (fun i j =>
      GcsEvalSetResultsStorageManager.get_eval_set_result_path app i ≠
      GcsEvalSetResultsStorageManager.get_eval_set_result_path app j) :=
    hnd.imp_of_mem fun _ _ hne' heq => hne' (gcs_result_path_inj heq)
  constructor
  · rcases local_set_saveAll_empty root app e hJ hslash hpwL hne with
      ⟨fs', hsa, hkeys, hdirs, -⟩
    exact ⟨fs', hsa, pySorted ids, local_set_list_of_state hJ hdirs hkeys hslash,
      pySorted_perm ids, pySorted_sorted ids⟩
  · rcases gcs_result_saveAll_ok app d ids ⟨bname, [], true, []⟩ rfl
      (by intro i _ h; simp at h) hpwG with ⟨b', hsa, hp', -, hkeys'⟩
    have hkeys2 : b'.blobs.map Prod.fst =
        ids.map (GcsEvalSetResultsStorageManager.get_eval_set_result_path app) := by
      simpa using hkeys'
    exact ⟨b', hsa, pySorted ids, gcs_result_list_of_keys app hp' hkeys2 hslash,
      pySorted_perm ids, pySorted_sorted ids⟩

/-- C6, witness: the amended theorem at the single id `"r1"` under
namespace `"app"`. -/
theorem c6_listing_determinism_witness :
    (∃ fs', LocalEvalSetStorageManager.saveAll LocalFS.empty "root" "app" ⟨"doc"⟩ ["r1"] =
        .ok fs' ∧
      ∃ r, LocalEvalSetStorageManager.list_eval_sets fs' "root" "app" = .ok r ∧
        r.Perm ["r1"] ∧ r.Sorted (· ≤ ·)) ∧
    (∃ b', GcsEvalSetResultsStorageManager.saveAll ⟨"bkt", [], true, []⟩ "app" ⟨"doc"⟩
        ["r1"] = .ok b' ∧
      ∃ r, GcsEvalSetResultsStorageManager.list_eval_set_results b' "app" = .ok r ∧
        r.Perm ["r1"] ∧ r.Sorted (· ≤ ·)) :=
  c6_listing_determinism "root" "app" "bkt" ⟨"doc"⟩ ⟨"doc"⟩ ["r1"] (by decide) (by decide)
    (by decide) (by decide)

/-! ## Claim C9: suffix exactness -/

/-- C9, counterexample.  The claim quantifies over every saved id whose
text contains the kind's suffix as an interior (non-true) suffix.  The id
`"a.evalset.json/b"` is such an id (the suffix occurs at position 1 and
the id ends in `"/b"`), yet after saving it the object-store eval-set
backend lists `["b"]` — id recovery takes `blob.name.split("/")[-1]` — so
the id is not returned unchanged. -/
theorem c9_suffix_exactness_cex :
    evalSetFileExtension.data <:+: ("a.evalset.json/b" : String).data ∧
    strEndsWith "a.evalset.json/b" evalSetFileExtension = false ∧
    GcsEvalSetStorageManager.save_eval_set ⟨"bkt", [], true, []⟩
      (GcsEvalSetStorageManager.get_eval_set_path "app" "a.evalset.json/b") ⟨"doc"⟩ =
      .ok ⟨"bkt", [("app/evals/eval_sets/a.evalset.json/b.evalset.json", "doc")],
        true, []⟩ ∧
    GcsEvalSetStorageManager.list_eval_sets
      ⟨"bkt", [("app/evals/eval_sets/a.evalset.json/b.evalset.json", "doc")], true, []⟩
      "app" = .ok ["b"] ∧
    (["b"] : List String) ≠ ["a.evalset.json/b"] :=
  ⟨by decide, by decide, rfl, rfl, by decide⟩

/-- C9 (amended): an id whose text contains the kind's file suffix as an
interior substring (but not as a true suffix) and contains no `/` is
neither dropped nor mis-stripped: after saving it (with a nonempty root
on the local backend), `list` returns the id unchanged on both the local
and the object-store eval-set backend (`removesuffix` strips only a true
trailing occurrence).  Without the slash-free restriction the claim fails
(see the counterexample). -/
theorem c9_suffix_exactness (root app bname : String) (e : EvalSet) (id : String)
    (hroot : root ≠ "")
    (hinterior : evalSetFileExtension.data <:+: id.data)
    (hnotsfx : strEndsWith id evalSetFileExtension = false)
    (hslash : ∀ c ∈ id.data, c ≠ '/') :
    (∃ fs', LocalEvalSetStorageManager.save_eval_set LocalFS.empty
        (LocalEvalSetStorageManager.get_eval_set_path root app id) e = .ok fs' ∧
      LocalEvalSetStorageManager.list_eval_sets fs' root app = .ok [id]) ∧
    (∃ b', GcsEvalSetStorageManager.save_eval_set ⟨bname, [], true, []⟩
        (GcsEvalSetStorageManager.get_eval_set_path app id) e = .ok b' ∧
      GcsEvalSetStorageManager.list_eval_sets b' app = .ok [id]) := by
  have hJ : pjoin root app ≠ "" := pjoin_ne_empty hroot
  have hpd := (local_set_path_props hJ hslash).1
  have hsl1 : ∀ i ∈ [id], ∀ c ∈ i.data, c ≠ '/' := by
    intro i hi
    rw [List.mem_singleton.mp hi]
    exact hslash
  constructor
  · refine ⟨⟨[(LocalEvalSetStorageManager.get_eval_set_path root app id, e.ser)],
      [normDir (pjoin root app)], []⟩, ?_, ?_⟩
    · rw [LocalEvalSetStorageManager.save_eval_set,
        LocalFS.save_empty (by rw [hpd]; exact normDir_ne_empty hJ), hpd, normDir_idem]
      rfl
    · have h := @local_set_list_of_state
        ⟨[(LocalEvalSetStorageManager.get_eval_set_path root app id, e.ser)],
          [normDir (pjoin root app)], []⟩ root app [id] hJ rfl rfl hsl1
      rw [pySorted_singleton] at h
      exact h
  · refine ⟨(⟨bname, [], true, []⟩ : GcsBucket).withBlob
      (GcsEvalSetStorageManager.get_eval_set_path app id) e.ser, ?_, ?_⟩
    · rw [GcsEvalSetStorageManager.save_eval_set, upload_ok rfl]
      rfl
    · have h := @gcs_set_list_of_keys
        ((⟨bname, [], true, []⟩ : GcsBucket).withBlob
          (GcsEvalSetStorageManager.get_eval_set_path app id) e.ser) app [id] rfl rfl hsl1
      rw [pySorted_singleton] at h
      exact h

/-- C9, witness: the id `"a.evalset.jsonb"`, which contains
`.evalset.json` as an interior substring only, round-trips through save
and list unchanged on both backends. -/
theorem c9_suffix_exactness_witness :
    (∃ fs', LocalEvalSetStorageManager.save_eval_set LocalFS.empty
        (LocalEvalSetStorageManager.get_eval_set_path "root" "app" "a.evalset.jsonb")
        ⟨"doc"⟩ = .ok fs' ∧
      LocalEvalSetStorageManager.list_eval_sets fs' "root" "app" =
        .ok ["a.evalset.jsonb"]) ∧
    (∃ b', GcsEvalSetStorageManager.save_eval_set ⟨"bkt", [], true, []⟩
        (GcsEvalSetStorageManager.get_eval_set_path "app" "a.evalset.jsonb") ⟨"doc"⟩ =
        .ok b' ∧
      GcsEvalSetStorageManager.list_eval_sets b' "app" = .ok ["a.evalset.jsonb"]) :=
  c9_suffix_exactness "root" "app" "bkt" ⟨"doc"⟩ "a.evalset.jsonb" (by decide) (by decide)
    (by decide) (by decide)

/-! ## Claim C10: the object-store list applies no suffix filter -/

/-- C10: the object-store `list` operations filter only by prefix, not by
file extension: every object under the namespace's kind prefix whose name
does not end with the kind's extension still contributes its last
slash-separated component, unmodified, to the returned ids (on the local
backends such an entry would be excluded by the `endswith` filter). -/
theorem c10_gcs_list_no_suffix_filter (b : GcsBucket) (app n : String)
    (hp : b.present = true) (hmem : n ∈ b.blobs.map Prod.fst) :
    (strStartsWith n (GcsEvalSetStorageManager.getEvalSetsDir app) = true →
      strEndsWith n evalSetFileExtension = false →
      ∃ r, GcsEvalSetStorageManager.list_eval_sets b app = .ok r ∧
        splitSlashLast n ∈ r) ∧
    (strStartsWith n (GcsEvalSetResultsStorageManager.getEvalHistoryDir app) = true →
      strEndsWith n evalSetResultFileExtension = false →
      ∃ r, GcsEvalSetResultsStorageManager.list_eval_set_results b app = .ok r ∧
        splitSlashLast n ∈ r) := by
  constructor
  · intro hpre hsuf
    have hmem2 : n ∈ (b.blobs.map Prod.fst).filter
        fun m => strStartsWith m (GcsEvalSetStorageManager.getEvalSetsDir app) :=
      List.mem_filter.mpr ⟨hmem, hpre⟩
    have hrec : removeSuffix (splitSlashLast n) evalSetFileExtension = splitSlashLast n :=
      removeSuffix_not_endsWith (strEndsWith_splitSlashLast hsuf)
    have hlist : GcsEvalSetStorageManager.list_eval_sets b app =
        .ok (pySorted (((b.blobs.map Prod.fst).filter
          fun m => strStartsWith m (GcsEvalSetStorageManager.getEvalSetsDir app)).map
          fun m => removeSuffix (splitSlashLast m) evalSetFileExtension)) := by
      rw [GcsEvalSetStorageManager.list_eval_sets, GcsBucket.listBlobs, if_pos hp]
    refine ⟨_, hlist, ?_⟩
    apply (pySorted_perm _).mem_iff.mpr
    rw [← hrec]
    exact List.mem_map_of_mem _ hmem2
  · intro hpre hsuf
    have hmem2 : n ∈ (b.blobs.map Prod.fst).filter
        fun m => strStartsWith m (GcsEvalSetResultsStorageManager.getEvalHistoryDir app) :=
      List.mem_filter.mpr ⟨hmem, hpre⟩
    have hrec : removeSuffix (splitSlashLast n) evalSetResultFileExtension =
        splitSlashLast n :=
      removeSuffix_not_endsWith (strEndsWith_splitSlashLast hsuf)
    have hlist : GcsEvalSetResultsStorageManager.list_eval_set_results b app =
        .ok (pySorted (((b.blobs.map Prod.fst).filter
          fun m => strStartsWith m (GcsEvalSetResultsStorageManager.getEvalHistoryDir app)).map
          fun m => removeSuffix (splitSlashLast m) evalSetResultFileExtension)) := by
      rw [GcsEvalSetResultsStorageManager.list_eval_set_results, GcsBucket.listBlobs,
        if_pos hp]
    refine ⟨_, hlist, ?_⟩
    apply (pySorted_perm _).mem_iff.mpr
    rw [← hrec]
    exact List.mem_map_of_mem _ hmem2

/-- C10, witness: a bucket holding the single object
`app/evals/eval_sets/notes.txt` (no `.evalset.json` suffix): the eval-set
list still includes `"notes.txt"`. -/
theorem c10_gcs_list_no_suffix_filter_witness :
    ∃ r, GcsEvalSetStorageManager.list_eval_sets
      ⟨"bkt", [("app/evals/eval_sets/notes.txt", "x")], true, []⟩ "app" = .ok r ∧
      splitSlashLast "app/evals/eval_sets/notes.txt" ∈ r :=
  (c10_gcs_list_no_suffix_filter ⟨"bkt", [("app/evals/eval_sets/notes.txt", "x")], true, []⟩
    "app" "app/evals/eval_sets/notes.txt" rfl (by decide)).1 (by decide) (by decide)

end AdkEval
